import Mathlib

/-!
Verification development for the extra-pool library (src/instance.ts and
src/pool.ts).  The code is single-threaded cooperative (async/await)
TypeScript; we embed it as executable small-step machines whose tasks carry
a program counter positioned at the `await` boundaries of the source.  A
schedule (a list of actions) selects which pending continuation runs next,
so every interleaving of microtasks that the runtime can produce corresponds
to a run of the machine.
-/

/-- States of the per-resource state machine, from `InstanceState` in
src/instance.ts. -/
inductive InstanceState
  | Creating
  | Idle
  | Using
  | Destroying
  | Destroyed
deriving DecidableEq, Repr

/-- Events of the per-resource state machine, from `InstanceEvent` in
src/instance.ts. -/
inductive InstanceEvent
  | created
  | use
  | idle
  | destroy
  | destroyed
deriving DecidableEq, Repr

/-- Transition table `instanceSchema` from src/instance.ts: the allowed
(state, event) → state transitions of an Instance. -/
def instanceSchema : InstanceState → InstanceEvent → Option InstanceState
  | .Creating, .created => some .Idle
  | .Idle, .use => some .Using
  | .Idle, .destroy => some .Destroying
  | .Using, .idle => some .Idle
  | .Destroying, .destroyed => some .Destroyed
  | _, _ => none

/-- Errors raised by the embedded machines. `invalidTransition` is the error
of the finite-state-machine evaluator; `notAvailable` is the failed
assertion at the top of `Instance.use`; `notEnabled` marks a schedule that
tries to resume a continuation that is not pending (such a schedule does not
correspond to any real execution). -/
inductive MErr
  | invalidTransition
  | notAvailable
  | assertFailed
  | notEnabled
  | notIdleInstance
deriving DecidableEq, Repr

/-- Modelled from the spec: the generic finite-state-machine evaluator
(`extra-fsm`, an external collaborator) validates every transition against
the schema; an invalid transition is a programming-contract violation and
throws.  `fsmSendInst` applies it to the instance schema. -/
def fsmSendInst (s : InstanceState) (e : InstanceEvent) : Except MErr InstanceState :=
  match instanceSchema s e with
  | some s' => .ok s'
  | none => .error .invalidTransition

/-- Settlement status of the one-shot `Deferred` holding the created value
(`_instance` in src/instance.ts). -/
inductive CStatus
  | pending
  | resolved
  | rejected
deriving DecidableEq, Repr

/-- Scalar state of one Instance: its lifecycle state, its live user count
(`_users`) and the settlement status of its creation. -/
structure InstSub where
  st : InstanceState
  users : Nat
  creation : CStatus
deriving DecidableEq, Repr

/-- Result of the synchronous part of `Instance.use` (lines 80-97 of
src/instance.ts, up to the first `await` the caller suspends on). -/
inductive EnterRes
  | toAwaitCreation
  | toAwaitValue
deriving DecidableEq, Repr

/-- Synchronous part of `Instance.use`: assert the state is not
Destroying/Destroyed, increment `_users`, then either suspend on the pending
creation (state `Creating`) or send `use` when `Idle`, assert the state is
`Using` and suspend on the (settled) value. -/
def instUseEnter (s : InstSub) : Except MErr (InstSub × EnterRes) :=
  match s.st with
  | .Destroying => .error .notAvailable
  | .Destroyed => .error .notAvailable
  | .Creating => .ok ({ s with users := s.users + 1 }, .toAwaitCreation)
  | .Idle =>
      -- users++ then fsm.send('use'); the assert `state === Using` passes
      .ok ({ s with users := s.users + 1, st := .Using }, .toAwaitValue)
  | .Using =>
      .ok ({ s with users := s.users + 1 }, .toAwaitValue)

/-- Program counter of a task interacting with a single Instance, positioned
at the `await` boundaries of src/instance.ts.  `awaitCreation` is the
suspension at line 89, `awaitValue` at line 97, `runningFn` means the
caller-supplied `fn` is in flight, `idone` means `use` has finished (the
finally block ran).  `deadCreate` and `deadAssert` are `use` calls that were
rejected after incrementing `_users` (creation rejection at line 89/97, or
the `state === Using` assertion): their decrement never runs.  The `d*`
counters belong to `Instance.destroy`. -/
inductive IPc
  | awaitCreation
  | awaitValue
  | runningFn
  | idone
  | deadCreate
  | deadAssert
  | dWaitIdle
  | dWaitIdleWoken
  | dInDestroy
  | dWaitDestroyed
  | dDone
deriving DecidableEq, Repr

/-- Actions (scheduler choices) of the instance machine. -/
inductive IAct
  | startUse
  | startDestroy
  | creationResolve
  | creationReject
  | resumeCreation (i : Nat)
  | resumeValue (i : Nat)
  | fnComplete (i : Nat)
  | dIdleNotify (i : Nat)
  | dIdleRun (i : Nat)
  | dFinish (i : Nat)
  | dDestroyedWake (i : Nat)
deriving DecidableEq, Repr

/-- Full state of the instance machine: the Instance's scalar state, the
pending tasks (continuations), the number of invocations of the configured
destructor and whether one is configured. -/
structure InstM where
  sub : InstSub
  tasks : List IPc
  destroyCalls : Nat
  hasCb : Bool
deriving DecidableEq, Repr

/-- Initial state of a freshly constructed Instance: construction
immediately begins asynchronous creation, so the state is `Creating`, no
users, creation pending. -/
def instInit (hasCb : Bool) : InstM :=
  { sub := { st := .Creating, users := 0, creation := .pending }
    tasks := []
    destroyCalls := 0
    hasCb := hasCb }

/-- One step of the instance machine.  Each case embeds one synchronous
block of src/instance.ts between `await` boundaries. -/
def istep (m : InstM) (a : IAct) : Except MErr InstM :=
  match a with
  | .startUse =>
      -- Instance.use, synchronous part up to the first suspension.
      match instUseEnter m.sub with
      | .error e => .error e
      | .ok (sub', .toAwaitCreation) =>
          .ok { m with sub := sub', tasks := m.tasks ++ [.awaitCreation] }
      | .ok (sub', .toAwaitValue) =>
          .ok { m with sub := sub', tasks := m.tasks ++ [.awaitValue] }
  | .startDestroy =>
      -- Instance.destroy, synchronous part.
      match m.sub.st with
      | .Destroyed => .ok { m with tasks := m.tasks ++ [.dDone] }
      | .Destroying => .ok { m with tasks := m.tasks ++ [.dWaitDestroyed] }
      | .Creating => .ok { m with tasks := m.tasks ++ [.dWaitIdle] }
      | .Using => .ok { m with tasks := m.tasks ++ [.dWaitIdle] }
      | .Idle =>
          match fsmSendInst m.sub.st .destroy with
          | .error e => .error e
          | .ok st' =>
              .ok { m with sub := { m.sub with st := st' }
                           tasks := m.tasks ++ [.dInDestroy] }
  | .creationResolve =>
      -- the go-block: fsm.send('created'); _instance.resolve(value)
      match m.sub.creation with
      | .pending =>
          match fsmSendInst m.sub.st .created with
          | .error e => .error e
          | .ok st' =>
              .ok { m with sub := { st := st', users := m.sub.users, creation := .resolved } }
      | _ => .error .notEnabled
  | .creationReject =>
      -- the go-block catch: _instance.reject(e); no state transition
      match m.sub.creation with
      | .pending =>
          .ok { m with sub := { m.sub with creation := .rejected } }
      | _ => .error .notEnabled
  | .resumeCreation i =>
      -- continuation of `await this._instance` at line 89
      match m.tasks.get? i with
      | some .awaitCreation =>
          match m.sub.creation with
          | .pending => .error .notEnabled
          | .rejected =>
              -- the await throws; Instance.use rejects; no decrement
              .ok { m with tasks := m.tasks.set i .deadCreate }
          | .resolved =>
              match m.sub.st with
              | .Idle =>
                  match fsmSendInst m.sub.st .use with
                  | .error e => .error e
                  | .ok st' =>
                      .ok { m with sub := { m.sub with st := st' }
                                   tasks := m.tasks.set i .awaitValue }
              | .Using =>
                  .ok { m with tasks := m.tasks.set i .awaitValue }
              | _ =>
                  -- assert(state === Using) fails; rejects without decrement
                  .ok { m with tasks := m.tasks.set i .deadAssert }
      | _ => .error .notEnabled
  | .resumeValue i =>
      -- continuation of `const instance = await this._instance` at line 97
      match m.tasks.get? i with
      | some .awaitValue =>
          match m.sub.creation with
          | .pending => .error .notEnabled
          | .rejected =>
              .ok { m with tasks := m.tasks.set i .deadCreate }
          | .resolved =>
              -- fn is invoked with the resolved value
              .ok { m with tasks := m.tasks.set i .runningFn }
      | _ => .error .notEnabled
  | .fnComplete i =>
      -- fn settled; the finally block: if ((--users) === 0) send('idle')
      match m.tasks.get? i with
      | some .runningFn =>
          if m.sub.users = 1 then
            match fsmSendInst m.sub.st .idle with
            | .error e => .error e
            | .ok st' =>
                .ok { m with sub := { st := st'
                                      users := m.sub.users - 1
                                      creation := m.sub.creation }
                             tasks := m.tasks.set i .idone }
          else
            .ok { m with sub := { m.sub with users := m.sub.users - 1 }
                         tasks := m.tasks.set i .idone }
      | _ => .error .notEnabled
  | .dIdleNotify i =>
      -- the rxjs firstValueFrom resolves on a transition to Idle
      match m.tasks.get? i with
      | some .dWaitIdle =>
          if m.sub.st = .Idle then
            .ok { m with tasks := m.tasks.set i .dWaitIdleWoken }
          else .error .notEnabled
      | _ => .error .notEnabled
  | .dIdleRun i =>
      -- continuation after the Idle wait: re-check the state
      match m.tasks.get? i with
      | some .dWaitIdleWoken =>
          match m.sub.st with
          | .Idle =>
              match fsmSendInst m.sub.st .destroy with
              | .error e => .error e
              | .ok st' =>
                  .ok { m with sub := { m.sub with st := st' }
                               tasks := m.tasks.set i .dInDestroy }
          | .Destroying =>
              .ok { m with tasks := m.tasks.set i .dWaitDestroyed }
          | _ =>
              -- neither branch taken: destroy returns without destroying
              .ok { m with tasks := m.tasks.set i .dDone }
      | _ => .error .notEnabled
  | .dFinish i =>
      -- await destroyInstance?.(await _instance); fsm.send('destroyed')
      match m.tasks.get? i with
      | some .dInDestroy =>
          match m.sub.creation with
          | .resolved =>
              match fsmSendInst m.sub.st .destroyed with
              | .error e => .error e
              | .ok st' =>
                  .ok { m with sub := { m.sub with st := st' }
                               tasks := m.tasks.set i .dDone
                               destroyCalls := m.destroyCalls + (if m.hasCb then 1 else 0) }
          | _ => .error .notEnabled
      | _ => .error .notEnabled
  | .dDestroyedWake i =>
      match m.tasks.get? i with
      | some .dWaitDestroyed =>
          if m.sub.st = .Destroyed then
            .ok { m with tasks := m.tasks.set i .dDone }
          else .error .notEnabled
      | _ => .error .notEnabled

/-- Run the instance machine on a schedule. -/
def irun (m : InstM) : List IAct → Except MErr InstM
  | [] => .ok m
  | a :: rest =>
      match istep m a with
      | .ok m' => irun m' rest
      | .error e => .error e

/-- A state of the instance machine is reachable when some schedule produces
it from the initial state. -/
def IReachable (hasCb : Bool) (m : InstM) : Prop :=
  ∃ acts : List IAct, irun (instInit hasCb) acts = .ok m

/-- States of the pool's own state machine, from `PoolState` in
src/pool.ts. -/
inductive PoolState
  | Running
  | Destroying
  | Destroyed
deriving DecidableEq, Repr

/-- Events of the pool's state machine, from `PoolEvent` in src/pool.ts. -/
inductive PoolEvent
  | destroy
  | destroyed
deriving DecidableEq, Repr

/-- Transition table `poolSchema` from src/pool.ts lines 63-71. -/
def poolSchema : PoolState → PoolEvent → Option PoolState
  | .Running, .destroy => some .Destroying
  | .Destroying, .destroyed => some .Destroyed
  | _, _ => none

/-- Modelled from the spec: the same external finite-state-machine evaluator
applied to the pool schema; sending an event with no entry for the current
state throws an invalid-transition error. -/
def fsmSendPool (s : PoolState) (e : PoolEvent) : Except MErr PoolState :=
  match poolSchema s e with
  | some s' => .ok s'
  | none => .error .invalidTransition

/-- Final outcome of a task: the result `Pool.use` settles with, or the
completion of `Pool.destroy`.  `unavailable` is the distinguished
`UnavailablePool` error; `createErr` is a propagated creation rejection;
`fnErr` a propagated error of the caller-supplied `fn`; `assertErr` the
failed availability assertion of `Instance.use`. -/
inductive Outcome
  | ok
  | fnErr
  | createErr
  | assertErr
  | unavailable
  | destroyDone
deriving DecidableEq, Repr

/-- One member of the pool's active set: an `IPoolItem` of src/pool.ts.
`sched` models the presence of the `cancelScheduledDeletion` handle (a
pending idle-eviction timer).  `inPool` models membership of the JS `Set`
(`this.items`); a deleted item keeps existing as an object, so we keep its
record and clear the flag, exactly like `Set.delete`. -/
structure Item where
  iid : Nat
  sub : InstSub
  sched : Bool
  inPool : Bool
deriving DecidableEq, Repr

/-- Program counter of a pool task, at the `await` boundaries of
src/pool.ts and of the `Instance.use` call it delegates to.
`poolFinally` is the `finally` block of `useItem` (release protocol),
entered once `item.instance.use(fn)` has settled with outcome `o`;
`inQueue` is a waiting caller suspended on its `Deferred`;
`useItemStart` is a dequeued waiter about to run `useItem`;
`destroyLoop k` is `Pool.destroy` at position `k` of its loop. -/
inductive PPc
  | awaitCreation (iid : Nat)
  | awaitValue (iid : Nat)
  | runningFn (iid : Nat)
  | poolFinally (iid : Nat) (o : Outcome)
  | inQueue
  | useItemStart (iid : Nat)
  | destroyLoop (k : Nat)
  | taskDone (o : Outcome)
deriving DecidableEq, Repr

/-- Actions (scheduler choices) of the pool machine. -/
inductive PAct
  | spawnUse
  | spawnDestroy
  | creationResolve (iid : Nat)
  | creationReject (iid : Nat)
  | resumeCreation (t : Nat)
  | resumeValue (t : Nat)
  | fnComplete (t : Nat) (ok : Bool)
  | stepFinally (t : Nat)
  | useItemGo (t : Nat)
  | timerFire (iid : Nat)
  | destroyStep (t : Nat)
deriving DecidableEq, Repr

/-- Full state of the pool machine.  Configuration fields mirror
`IPoolOptions`: `maxI = none` is the default `Infinity`; `hasCb` records
whether a `destroy` callback is configured.  `destroyLog` lists the
instances the configured destroy callback was invoked for; `rejections`
lists, in order, the waiting callers rejected with `UnavailablePool`. -/
structure PM where
  fsm : PoolState
  items : List Item
  queue : List Nat
  tasks : List PPc
  destroyLog : List Nat
  rejections : List Nat
  nextIid : Nat
  maxI : Option Nat
  minI : Nat
  idleT : Nat
  conc : Nat
  hasCb : Bool
deriving DecidableEq, Repr

/-- Members of the JS `Set` `this.items` (insertion order). -/
def activeItems (p : PM) : List Item :=
  p.items.filter (fun it => it.inPool)

/-- Pool.size: the size of the active set. -/
def poolSize (p : PM) : Nat :=
  (activeItems p).length

/-- Comparison against `maxInstances`, where `none` is `Infinity`. -/
def sizeLt (n : Nat) : Option Nat → Bool
  | none => true
  | some mx => n < mx

/-- Update the item with identity `iid` in place. -/
def updItem (l : List Item) (iid : Nat) (f : Item → Item) : List Item :=
  l.map (fun it => if it.iid = iid then f it else it)

/-- Candidate selection of `Pool.use` (src/pool.ts lines 107-122): filter
the active items to those with spare concurrency, then `reduce` to the one
with the fewest current users (the earlier item wins ties, since the
comparison is strict). -/
def selectCandidate (items : List Item) (c : Nat) : Option Item :=
  match items.filter (fun it => it.sub.users < c) with
  | [] => none
  | h :: t => some (t.foldl (fun previous current =>
      if current.sub.users < previous.sub.users then current else previous) h)

/-- Embedded `Instance.destroy` for an instance settled in the pool paths
(the pool only destroys instances that are `Idle`, or already `Destroyed`
in which case the call is a no-op): send `destroy`, invoke the configured
callback, send `destroyed`.  The returned flag says whether the destroy
callback was invoked. -/
def destroyInstanceSub (s : InstSub) (hasCb : Bool) : Except MErr (InstSub × Bool) :=
  match s.st with
  | .Idle => .ok ({ s with st := .Destroyed }, hasCb)
  | .Destroyed => .ok (s, false)
  | _ => .error .notIdleInstance

/-- Embedded `deleteInstance` from src/pool.ts lines 170-173: remove the
item from the active set, then destroy its instance (appending to the
destroy-callback log when invoked). -/
def deleteInstanceP (p : PM) (iid : Nat) : Except MErr PM :=
  match p.items.find? (fun it => it.iid = iid) with
  | none => .error .notEnabled
  | some it =>
      match destroyInstanceSub it.sub p.hasCb with
      | .error e => .error e
      | .ok (sub', invoked) =>
          let items' := updItem p.items iid (fun i => { i with inPool := false, sub := sub' })
          .ok { p with items := items'
                       destroyLog := p.destroyLog ++ (if invoked then [iid] else []) }

/-- Embedded synchronous part of `useItem` (src/pool.ts lines 140-148):
cancel any scheduled deletion of the item, then run the synchronous part of
`Instance.use`.  Returns the updated pool and the program counter the task
suspends at: the creation await, the value await, or — when the
availability assertion throws — directly the `finally` block with an
assertion-error outcome. -/
def useItemCore (p : PM) (iid : Nat) : Except MErr (PM × PPc) :=
  match p.items.find? (fun it => it.iid = iid) with
  | none => .error .notEnabled
  | some it =>
      let p1 : PM :=
        { p with items := updItem p.items iid (fun i => { i with sched := false }) }
      match instUseEnter it.sub with
      | .error .notAvailable => .ok (p1, .poolFinally iid .assertErr)
      | .error e => .error e
      | .ok (sub', r) =>
          let p2 : PM :=
            { p1 with items := updItem p1.items iid (fun i => { i with sub := sub' }) }
          match r with
          | .toAwaitCreation => .ok (p2, .awaitCreation iid)
          | .toAwaitValue => .ok (p2, .awaitValue iid)

/-- Reject every queued waiter: set each queued task to the
`UnavailablePool` outcome, front of the queue first. -/
def drainAll (tasks : List PPc) : List Nat → List PPc
  | [] => tasks
  | w :: ws => drainAll (tasks.set w (.taskDone .unavailable)) ws

/-- One step of the pool machine.  Each case embeds one synchronous block of
src/pool.ts (plus the synchronous part of the `Instance.use` /
`Instance.destroy` it delegates to) between `await` boundaries. -/
def pstep (p : PM) (a : PAct) : Except MErr PM :=
  match a with
  | .spawnUse =>
      -- Pool.use lines 104-138: select a candidate, else grow, else enqueue.
      let tid := p.tasks.length
      match selectCandidate (activeItems p) p.conc with
      | some it =>
          match useItemCore p it.iid with
          | .error e => .error e
          | .ok (p', pc) => .ok { p' with tasks := p'.tasks ++ [pc] }
      | none =>
          if sizeLt (poolSize p) p.maxI then
            let newItem : Item :=
              { iid := p.nextIid
                sub := { st := .Creating, users := 0, creation := .pending }
                sched := false
                inPool := true }
            let pg : PM :=
              { p with items := p.items ++ [newItem], nextIid := p.nextIid + 1 }
            match useItemCore pg newItem.iid with
            | .error e => .error e
            | .ok (p', pc) => .ok { p' with tasks := p'.tasks ++ [pc] }
          else
            .ok { p with queue := p.queue ++ [tid], tasks := p.tasks ++ [.inQueue] }
  | .spawnDestroy =>
      -- Pool.destroy line 178: fsm.send('destroy'), then the loop begins.
      match fsmSendPool p.fsm .destroy with
      | .error e => .error e
      | .ok fsm' =>
          .ok { p with fsm := fsm', tasks := p.tasks ++ [.destroyLoop 0] }
  | .creationResolve iid =>
      match p.items.find? (fun it => it.iid = iid) with
      | none => .error .notEnabled
      | some it =>
          match it.sub.creation with
          | .pending =>
              match fsmSendInst it.sub.st .created with
              | .error e => .error e
              | .ok st' =>
                  let items' := updItem p.items iid (fun i =>
                    { i with sub := { st := st', users := i.sub.users, creation := .resolved } })
                  .ok { p with items := items' }
          | _ => .error .notEnabled
  | .creationReject iid =>
      match p.items.find? (fun it => it.iid = iid) with
      | none => .error .notEnabled
      | some it =>
          match it.sub.creation with
          | .pending =>
              let items' := updItem p.items iid (fun i =>
                { i with sub := { i.sub with creation := .rejected } })
              .ok { p with items := items' }
          | _ => .error .notEnabled
  | .resumeCreation t =>
      -- continuation of `await this._instance` (instance.ts line 89) inside
      -- the Instance.use delegated to by useItem
      match p.tasks.get? t with
      | some (.awaitCreation iid) =>
          match p.items.find? (fun it => it.iid = iid) with
          | none => .error .notEnabled
          | some it =>
              match it.sub.creation with
              | .pending => .error .notEnabled
              | .rejected =>
                  -- creation rejection propagates out of Instance.use;
                  -- `_users` is never decremented; useItem's finally runs next
                  .ok { p with tasks := p.tasks.set t (.poolFinally iid .createErr) }
              | .resolved =>
                  match it.sub.st with
                  | .Idle =>
                      match fsmSendInst it.sub.st .use with
                      | .error e => .error e
                      | .ok st' =>
                          let items' := updItem p.items iid (fun i =>
                            { i with sub := { i.sub with st := st' } })
                          .ok { p with items := items'
                                       tasks := p.tasks.set t (.awaitValue iid) }
                  | .Using =>
                      .ok { p with tasks := p.tasks.set t (.awaitValue iid) }
                  | _ =>
                      .ok { p with tasks := p.tasks.set t (.poolFinally iid .assertErr) }
      | _ => .error .notEnabled
  | .resumeValue t =>
      -- continuation of `const instance = await this._instance` (line 97)
      match p.tasks.get? t with
      | some (.awaitValue iid) =>
          match p.items.find? (fun it => it.iid = iid) with
          | none => .error .notEnabled
          | some it =>
              match it.sub.creation with
              | .pending => .error .notEnabled
              | .rejected =>
                  .ok { p with tasks := p.tasks.set t (.poolFinally iid .createErr) }
              | .resolved =>
                  -- fn is invoked with the created value
                  .ok { p with tasks := p.tasks.set t (.runningFn iid) }
      | _ => .error .notEnabled
  | .fnComplete t ok =>
      -- fn settled; the finally of Instance.use: if ((--users) === 0) idle
      match p.tasks.get? t with
      | some (.runningFn iid) =>
          match p.items.find? (fun it => it.iid = iid) with
          | none => .error .notEnabled
          | some it =>
              let o : Outcome := if ok then .ok else .fnErr
              if it.sub.users = 1 then
                match fsmSendInst it.sub.st .idle with
                | .error e => .error e
                | .ok st' =>
                    let items' := updItem p.items iid (fun i =>
                      { i with sub := { st := st', users := i.sub.users - 1, creation := i.sub.creation } })
                    .ok { p with items := items'
                                 tasks := p.tasks.set t (.poolFinally iid o) }
              else
                let items' := updItem p.items iid (fun i =>
                  { i with sub := { i.sub with users := i.sub.users - 1 } })
                .ok { p with items := items'
                             tasks := p.tasks.set t (.poolFinally iid o) }
      | _ => .error .notEnabled
  | .stepFinally t =>
      -- the finally of useItem (src/pool.ts lines 149-168): offer the item
      -- to the earliest waiter, else consider eviction.
      match p.tasks.get? t with
      | some (.poolFinally iid o) =>
          match p.queue with
          | w :: rest =>
              match p.tasks.get? w with
              | some .inQueue =>
                  .ok { p with queue := rest
                               tasks := (p.tasks.set w (.useItemStart iid)).set t (.taskDone o) }
              | _ => .error .notEnabled
          | [] =>
              match p.items.find? (fun it => it.iid = iid) with
              | none => .error .notEnabled
              | some it =>
                  if it.sub.users = 0 ∧ p.minI < poolSize p then
                    if 0 < p.idleT then
                      let items' := updItem p.items iid (fun i => { i with sched := true })
                      .ok { p with items := items'
                                   tasks := p.tasks.set t (.taskDone o) }
                    else
                      match deleteInstanceP p iid with
                      | .error e => .error e
                      | .ok p' =>
                          .ok { p' with tasks := p'.tasks.set t (.taskDone o) }
                  else
                    .ok { p with tasks := p.tasks.set t (.taskDone o) }
      | _ => .error .notEnabled
  | .useItemGo t =>
      -- a dequeued waiter resumes and runs useItem with the handed item
      match p.tasks.get? t with
      | some (.useItemStart iid) =>
          match useItemCore p iid with
          | .error e => .error e
          | .ok (p', pc) => .ok { p' with tasks := p'.tasks.set t pc }
      | _ => .error .notEnabled
  | .timerFire iid =>
      -- the scheduled deletion callback fires after idleTimeout
      match p.items.find? (fun it => it.iid = iid) with
      | none => .error .notEnabled
      | some it =>
          if it.sched then
            match deleteInstanceP p iid with
            | .error e => .error e
            | .ok p' =>
                let items' := updItem p'.items iid (fun i => { i with sched := false })
                .ok { p' with items := items' }
          else .error .notEnabled
  | .destroyStep t =>
      -- one iteration of the destroy loop, or — past the last item — the
      -- synchronous tail of Pool.destroy: clear the set, drain the queue,
      -- send 'destroyed'.
      match p.tasks.get? t with
      | some (.destroyLoop k) =>
          match (activeItems p).get? k with
          | some it =>
              match it.sub.st with
              | .Idle =>
                  match destroyInstanceSub it.sub p.hasCb with
                  | .error e => .error e
                  | .ok (sub', invoked) =>
                      let items' := updItem p.items it.iid (fun i => { i with sub := sub' })
                      .ok { p with items := items'
                                   destroyLog := p.destroyLog ++ (if invoked then [it.iid] else [])
                                   tasks := p.tasks.set t (.destroyLoop (k + 1)) }
              | .Destroyed =>
                  .ok { p with tasks := p.tasks.set t (.destroyLoop (k + 1)) }
              | _ => .error .notEnabled
          | none =>
              match fsmSendPool p.fsm .destroyed with
              | .error e => .error e
              | .ok fsm' =>
                  let items' := p.items.map (fun i => { i with inPool := false })
                  .ok { p with fsm := fsm'
                               items := items'
                               queue := []
                               rejections := p.rejections ++ p.queue
                               tasks := (drainAll p.tasks p.queue).set t (.taskDone .destroyDone) }
      | _ => .error .notEnabled

/-- Run the pool machine on a schedule. -/
def prun (p : PM) : List PAct → Except MErr PM
  | [] => .ok p
  | a :: rest =>
      match pstep p a with
      | .ok p' => prun p' rest
      | .error e => .error e

/-- A freshly constructed pool with the given configuration. -/
def poolInit (maxI : Option Nat) (minI idleT conc : Nat) (hasCb : Bool) : PM :=
  { fsm := .Running
    items := []
    queue := []
    tasks := []
    destroyLog := []
    rejections := []
    nextIid := 0
    maxI := maxI
    minI := minI
    idleT := idleT
    conc := conc
    hasCb := hasCb }

/-- Number of tasks currently executing their `fn` against the value of
item `iid`. -/
def runningOn (p : PM) (iid : Nat) : Nat :=
  p.tasks.countP (fun pc => pc = PPc.runningFn iid)

/-! ### List helpers for counting tasks -/

/-- Setting index `i` and reading it back. -/
theorem get?SetSelf {α : Type} (l : List α) (i : Nat) (x : α) (h : i < l.length) :
    (l.set i x).get? i = some x := by
  induction l generalizing i with
  | nil => simp at h
  | cons a as ih =>
      cases i with
      | zero => rfl
      | succ n =>
          simp only [List.length_cons, Nat.succ_lt_succ_iff] at h
          simpa [List.set] using ih n h

/-- Setting index `i` does not change other positions. -/
theorem get?SetNe {α : Type} (l : List α) (i j : Nat) (x : α) (h : i ≠ j) :
    (l.set i x).get? j = l.get? j := by
  induction l generalizing i j with
  | nil => rfl
  | cons a as ih =>
      cases i with
      | zero =>
          cases j with
          | zero => exact absurd rfl h
          | succ n => rfl
      | succ n =>
          cases j with
          | zero => rfl
          | succ k =>
              simpa [List.set] using ih n k (fun hh => h (by simp [hh]))

/-- Replacing the element at a position changes `countP` by the difference of
the indicator values. -/
theorem countPSetAdd {α : Type} (p : α → Bool) (l : List α) (i : Nat) (x y : α)
    (h : l.get? i = some y) :
    (l.set i x).countP p + (if p y then 1 else 0)
      = l.countP p + (if p x then 1 else 0) := by
  induction l generalizing i with
  | nil => simp at h
  | cons a as ih =>
      cases i with
      | zero =>
          simp only [List.get?] at h
          cases h
          simp [List.set, List.countP_cons]
          omega
      | succ n =>
          simp only [List.get?] at h
          have := ih n h
          simp [List.set, List.countP_cons]
          omega

/-- A position holding an element satisfying `p` makes `countP` positive. -/
theorem countPPosOfGet? {α : Type} (p : α → Bool) (l : List α) (i : Nat) (x : α)
    (h : l.get? i = some x) (hp : p x = true) : 0 < l.countP p := by
  induction l generalizing i with
  | nil => simp at h
  | cons a as ih =>
      cases i with
      | zero =>
          simp only [List.get?] at h
          cases h
          simp [List.countP_cons, hp]
      | succ n =>
          simp only [List.get?] at h
          have h2 := ih n h
          simp only [List.countP_cons]
          omega

/-- Two distinct positions holding elements satisfying `p` give a count of at
least two. -/
theorem twoLeCountP {α : Type} (p : α → Bool) (l : List α) (i j : Nat) (x y : α)
    (hij : i ≠ j) (hi : l.get? i = some x) (hj : l.get? j = some y)
    (hx : p x = true) (hy : p y = true) : 2 ≤ l.countP p := by
  induction l generalizing i j with
  | nil => simp at hi
  | cons a as ih =>
      cases i with
      | zero =>
          cases j with
          | zero => exact absurd rfl hij
          | succ n =>
              simp only [List.get?] at hi hj
              cases hi
              have h2 := countPPosOfGet? p as n y hj hy
              simp only [List.countP_cons, hx, if_true]
              omega
      | succ n =>
          cases j with
          | zero =>
              simp only [List.get?] at hi hj
              cases hj
              have h2 := countPPosOfGet? p as n x hi hx
              simp only [List.countP_cons, hy, if_true]
              omega
          | succ k =>
              simp only [List.get?] at hi hj
              have h2 := ih n k (fun hh => hij (by simp [hh])) hi hj
              simp only [List.countP_cons]
              omega

/-- Reading a position of `l ++ [x]` yields an element of `l` at the same
position, or `x` itself. -/
theorem get?AppendElim {α : Type} (l : List α) (x : α) (j : Nat) (pc : α)
    (h : (l ++ [x]).get? j = some pc) : l.get? j = some pc ∨ pc = x := by
  by_cases hj : j < l.length
  · left
    rwa [List.get?_append hj] at h
  · right
    rw [List.get?_append_right (Nat.le_of_not_lt hj)] at h
    match hd : j - l.length, h with
    | 0, h => simp only [hd, List.get?] at h; cases h; rfl
    | n + 1, h => simp only [hd, List.get?] at h; cases h

/-! ### The user-count invariant of the Instance machine -/

/-- Program counters of use-calls that have incremented `_users` and have not
(yet, or ever) decremented it. -/
def isIncr : IPc → Bool
  | .awaitCreation => true
  | .awaitValue => true
  | .runningFn => true
  | .deadCreate => true
  | .deadAssert => true
  | _ => false

/-- Program counters of use-calls that have passed the `state === Using`
assertion and will later run the decrementing finally block. -/
def isActive : IPc → Bool
  | .awaitValue => true
  | .runningFn => true
  | _ => false

/-- Inductive invariant of the instance machine: the user count equals the
number of use-calls that incremented it and never decremented; every task
past the `Using` assertion witnesses state `Using`; and in state `Using` the
user count is positive. -/
structure IInv (m : InstM) : Prop where
  usersEq : m.sub.users = m.tasks.countP isIncr
  active : ∀ i pc, m.tasks.get? i = some pc → isActive pc = true → m.sub.st = .Using
  usingPos : m.sub.st = .Using → 0 < m.sub.users

theorem iinv_init (hasCb : Bool) : IInv (instInit hasCb) := by
  constructor
  · rfl
  · intro i pc h _
    simp [instInit] at h
  · intro h
    simp [instInit] at h

theorem activeIncr (pc : IPc) (h : isActive pc = true) : isIncr pc = true := by
  cases pc <;> simp [isActive, isIncr] at h ⊢

theorem iinv_startUse (m m' : InstM) (hstep : istep m .startUse = .ok m')
    (hinv : IInv m) : IInv m' := by
  obtain ⟨husers, hactive, hpos⟩ := hinv
  cases hst : m.sub.st with
  | Creating =>
      simp [istep, instUseEnter, hst] at hstep
      subst hstep
      refine ⟨?_, ?_, ?_⟩
      · simp [List.countP_append, List.countP_cons, isIncr, husers]
      · intro i pc h hact
        rcases get?AppendElim _ _ _ _ h with h' | h'
        · have hu := hactive i pc h' hact
          rw [hst] at hu
          cases hu
        · subst h'; simp [isActive] at hact
      · intro _; exact Nat.succ_pos _
  | Idle =>
      simp [istep, instUseEnter, hst] at hstep
      subst hstep
      refine ⟨?_, ?_, ?_⟩
      · simp [List.countP_append, List.countP_cons, isIncr, husers]
      · intro i pc h hact; rfl
      · intro _; exact Nat.succ_pos _
  | Using =>
      simp [istep, instUseEnter, hst] at hstep
      subst hstep
      refine ⟨?_, ?_, ?_⟩
      · simp [List.countP_append, List.countP_cons, isIncr, husers]
      · intro i pc h hact; rfl
      · intro _; exact Nat.succ_pos _
  | Destroying => simp [istep, instUseEnter, hst] at hstep
  | Destroyed => simp [istep, instUseEnter, hst] at hstep

theorem iinv_startDestroy (m m' : InstM) (hstep : istep m .startDestroy = .ok m')
    (hinv : IInv m) : IInv m' := by
  obtain ⟨husers, hactive, hpos⟩ := hinv
  have hsame : ∀ pc0 : IPc, isIncr pc0 = false → isActive pc0 = false →
      m'.tasks = m.tasks ++ [pc0] → m'.sub.st = m.sub.st → m'.sub.users = m.sub.users →
      IInv m' := by
    intro pc0 hni hna htasks hstv huv
    refine ⟨?_, ?_, ?_⟩
    · rw [huv, htasks, List.countP_append, husers]
      simp [List.countP_cons, hni]
    · intro i pc h hact
      rw [htasks] at h
      rcases get?AppendElim _ _ _ _ h with h' | h'
      · rw [hstv]; exact hactive i pc h' hact
      · subst h'; rw [hact] at hna; cases hna
    · intro h; rw [huv]; exact hpos (by rw [hstv] at h; exact h)
  cases hst : m.sub.st with
  | Destroyed =>
      simp [istep, hst] at hstep
      subst hstep
      exact hsame .dDone rfl rfl rfl rfl rfl
  | Destroying =>
      simp [istep, hst] at hstep
      subst hstep
      exact hsame .dWaitDestroyed rfl rfl rfl rfl rfl
  | Creating =>
      simp [istep, hst] at hstep
      subst hstep
      exact hsame .dWaitIdle rfl rfl rfl rfl rfl
  | Using =>
      simp [istep, hst] at hstep
      subst hstep
      exact hsame .dWaitIdle rfl rfl rfl rfl rfl
  | Idle =>
      simp [istep, hst, fsmSendInst, instanceSchema] at hstep
      subst hstep
      refine ⟨?_, ?_, ?_⟩
      · simp [List.countP_append, List.countP_cons, isIncr, husers]
      · intro i pc h hact
        rcases get?AppendElim _ _ _ _ h with h' | h'
        · have hu := hactive i pc h' hact
          rw [hst] at hu
          cases hu
        · subst h'; simp [isActive] at hact
      · intro h; cases h

theorem iinv_creationResolve (m m' : InstM) (hstep : istep m .creationResolve = .ok m')
    (hinv : IInv m) : IInv m' := by
  obtain ⟨husers, hactive, hpos⟩ := hinv
  cases hc : m.sub.creation with
  | pending =>
      cases hst : m.sub.st <;>
        simp [istep, hc, hst, fsmSendInst, instanceSchema] at hstep
      subst hstep
      refine ⟨husers, ?_, ?_⟩
      · intro i pc h hact
        have hu := hactive i pc h hact
        rw [hst] at hu
        cases hu
      · intro h; cases h
  | resolved => simp [istep, hc] at hstep
  | rejected => simp [istep, hc] at hstep

theorem iinv_creationReject (m m' : InstM) (hstep : istep m .creationReject = .ok m')
    (hinv : IInv m) : IInv m' := by
  obtain ⟨husers, hactive, hpos⟩ := hinv
  cases hc : m.sub.creation with
  | pending =>
      simp [istep, hc] at hstep
      subst hstep
      exact ⟨husers, hactive, hpos⟩
  | resolved => simp [istep, hc] at hstep
  | rejected => simp [istep, hc] at hstep

theorem ltOfGet? {α : Type} (l : List α) (i : Nat) (x : α) (h : l.get? i = some x) :
    i < l.length := by
  by_contra h'
  rw [List.get?_eq_none.mpr (Nat.le_of_not_lt h')] at h
  cases h

theorem iinv_resumeCreation (m m' : InstM) (i : Nat)
    (hstep : istep m (.resumeCreation i) = .ok m') (hinv : IInv m) : IInv m' := by
  obtain ⟨husers, hactive, hpos⟩ := hinv
  cases hti : m.tasks.get? i with
  | none =>
      have htiG := hti
      rw [List.get?_eq_getElem?] at htiG
      simp [istep, htiG] at hstep
  | some pci =>
      have htiG := hti
      rw [List.get?_eq_getElem?] at htiG
      cases pci <;> simp [istep, htiG] at hstep
      -- only the .awaitCreation case remains
      case awaitCreation =>
      have hkeep : ∀ pc0 : IPc, isIncr pc0 = true → isActive pc0 = false →
          m' = { m with tasks := m.tasks.set i pc0 } → IInv m' := by
        intro pc0 hi0 ha0 hm'
        subst hm'
        refine ⟨?_, ?_, ?_⟩
        · have hadd := countPSetAdd isIncr m.tasks i pc0 .awaitCreation hti
          rw [hi0] at hadd
          simp only [isIncr, if_true] at hadd
          show m.sub.users = (m.tasks.set i pc0).countP isIncr
          rw [husers]
          omega
        · intro j pc h hact
          by_cases hij : i = j
          · subst hij
            rw [get?SetSelf m.tasks i pc0 (ltOfGet? m.tasks i _ hti)] at h
            cases h
            rw [hact] at ha0
            cases ha0
          · rw [get?SetNe m.tasks i j pc0 hij] at h
            exact hactive j pc h hact
        · exact hpos
      cases hcr : m.sub.creation with
      | pending => simp [hcr] at hstep
      | rejected =>
          simp [hcr] at hstep
          exact hkeep .deadCreate rfl rfl hstep.symm
      | resolved =>
          cases hst : m.sub.st with
          | Idle =>
              simp [hcr, hst, fsmSendInst, instanceSchema] at hstep
              subst hstep
              refine ⟨?_, ?_, ?_⟩
              · have hadd := countPSetAdd isIncr m.tasks i .awaitValue .awaitCreation hti
                simp only [isIncr, if_true] at hadd
                show m.sub.users = (m.tasks.set i .awaitValue).countP isIncr
                rw [husers]
                omega
              · intro j pc h hact; rfl
              · intro _
                show 0 < m.sub.users
                rw [husers]
                exact countPPosOfGet? isIncr m.tasks i .awaitCreation hti rfl
          | Using =>
              simp [hcr, hst] at hstep
              subst hstep
              refine ⟨?_, ?_, ?_⟩
              · have hadd := countPSetAdd isIncr m.tasks i .awaitValue .awaitCreation hti
                simp only [isIncr, if_true] at hadd
                show m.sub.users = (m.tasks.set i .awaitValue).countP isIncr
                rw [husers]
                omega
              · intro j pc h hact; exact hst
              · intro _; exact hpos hst
          | Creating =>
              simp [hcr, hst] at hstep
              exact hkeep .deadAssert rfl rfl hstep.symm
          | Destroying =>
              simp [hcr, hst] at hstep
              exact hkeep .deadAssert rfl rfl hstep.symm
          | Destroyed =>
              simp [hcr, hst] at hstep
              exact hkeep .deadAssert rfl rfl hstep.symm

theorem iinv_resumeValue (m m' : InstM) (i : Nat)
    (hstep : istep m (.resumeValue i) = .ok m') (hinv : IInv m) : IInv m' := by
  obtain ⟨husers, hactive, hpos⟩ := hinv
  cases hti : m.tasks.get? i with
  | none =>
      have htiG := hti
      rw [List.get?_eq_getElem?] at htiG
      simp [istep, htiG] at hstep
  | some pci =>
      have htiG := hti
      rw [List.get?_eq_getElem?] at htiG
      cases pci <;> simp [istep, htiG] at hstep
      case awaitValue =>
      have hkeep : ∀ pc0 : IPc, isIncr pc0 = true →
          m' = { m with tasks := m.tasks.set i pc0 } →
          (isActive pc0 = true → m.sub.st = .Using) → IInv m' := by
        intro pc0 hi0 hm' hact0
        subst hm'
        refine ⟨?_, ?_, ?_⟩
        · have hadd := countPSetAdd isIncr m.tasks i pc0 .awaitValue hti
          rw [hi0] at hadd
          simp only [isIncr, if_true] at hadd
          show m.sub.users = (m.tasks.set i pc0).countP isIncr
          rw [husers]
          omega
        · intro j pc h hact
          by_cases hij : i = j
          · subst hij
            rw [get?SetSelf m.tasks i pc0 (ltOfGet? m.tasks i _ hti)] at h
            cases h
            exact hact0 hact
          · rw [get?SetNe m.tasks i j pc0 hij] at h
            exact hactive j pc h hact
        · exact hpos
      cases hcr : m.sub.creation with
      | pending => simp [hcr] at hstep
      | rejected =>
          simp [hcr] at hstep
          exact hkeep .deadCreate rfl hstep.symm (fun h => by cases h)
      | resolved =>
          simp [hcr] at hstep
          exact hkeep .runningFn rfl hstep.symm
            (fun _ => hactive i .awaitValue hti rfl)

theorem iinv_fnComplete (m m' : InstM) (i : Nat)
    (hstep : istep m (.fnComplete i) = .ok m') (hinv : IInv m) : IInv m' := by
  obtain ⟨husers, hactive, hpos⟩ := hinv
  cases hti : m.tasks.get? i with
  | none =>
      have htiG := hti
      rw [List.get?_eq_getElem?] at htiG
      simp [istep, htiG] at hstep
  | some pci =>
      have htiG := hti
      rw [List.get?_eq_getElem?] at htiG
      cases pci <;> simp [istep, htiG] at hstep
      case runningFn =>
      have hUsing : m.sub.st = .Using := hactive i .runningFn hti rfl
      have hadd := countPSetAdd isIncr m.tasks i .idone .runningFn hti
      simp [isIncr] at hadd
      have hposc : 0 < m.tasks.countP isIncr :=
        countPPosOfGet? isIncr m.tasks i .runningFn hti rfl
      by_cases hone : m.sub.users = 1
      · rw [if_pos hone, hUsing] at hstep
        simp [fsmSendInst, instanceSchema] at hstep
        subst hstep
        refine ⟨?_, ?_, ?_⟩
        · show m.sub.users - 1 = (m.tasks.set i .idone).countP isIncr
          rw [hone]
          rw [husers] at hone
          omega
        · intro j pc h hact
          by_cases hij : i = j
          · subst hij
            rw [get?SetSelf m.tasks i .idone (ltOfGet? m.tasks i _ hti)] at h
            cases h
            cases hact
          · rw [get?SetNe m.tasks i j .idone hij] at h
            have h2 := twoLeCountP isIncr m.tasks i j .runningFn pc hij hti h
              rfl (activeIncr pc hact)
            rw [husers] at hone
            omega
        · intro h; cases h
      · rw [if_neg hone] at hstep
        simp at hstep
        subst hstep
        refine ⟨?_, ?_, ?_⟩
        · show m.sub.users - 1 = (m.tasks.set i .idone).countP isIncr
          rw [husers]
          omega
        · intro j pc h hact
          by_cases hij : i = j
          · subst hij
            rw [get?SetSelf m.tasks i .idone (ltOfGet? m.tasks i _ hti)] at h
            cases h
            cases hact
          · rw [get?SetNe m.tasks i j .idone hij] at h
            exact hactive j pc h hact
        · intro h
          have h2 := hpos hUsing
          show 0 < m.sub.users - 1
          omega

theorem iinv_dIdleNotify (m m' : InstM) (i : Nat)
    (hstep : istep m (.dIdleNotify i) = .ok m') (hinv : IInv m) : IInv m' := by
  obtain ⟨husers, hactive, hpos⟩ := hinv
  cases hti : m.tasks.get? i with
  | none =>
      have htiG := hti
      rw [List.get?_eq_getElem?] at htiG
      simp [istep, htiG] at hstep
  | some pci =>
      have htiG := hti
      rw [List.get?_eq_getElem?] at htiG
      cases pci <;> simp [istep, htiG] at hstep
      case dWaitIdle =>
      by_cases hst : m.sub.st = .Idle
      case neg => simp [hst] at hstep
      case pos =>
      simp [hst] at hstep
      subst hstep
      refine ⟨?_, ?_, ?_⟩
      · have hadd := countPSetAdd isIncr m.tasks i .dWaitIdleWoken .dWaitIdle hti
        simp [isIncr] at hadd
        show m.sub.users = (m.tasks.set i .dWaitIdleWoken).countP isIncr
        rw [husers, hadd]
      · intro j pc h hact
        by_cases hij : i = j
        · subst hij
          rw [get?SetSelf m.tasks i .dWaitIdleWoken (ltOfGet? m.tasks i _ hti)] at h
          cases h
          cases hact
        · rw [get?SetNe m.tasks i j .dWaitIdleWoken hij] at h
          exact hactive j pc h hact
      · exact hpos

theorem iinv_dIdleRun (m m' : InstM) (i : Nat)
    (hstep : istep m (.dIdleRun i) = .ok m') (hinv : IInv m) : IInv m' := by
  obtain ⟨husers, hactive, hpos⟩ := hinv
  cases hti : m.tasks.get? i with
  | none =>
      have htiG := hti
      rw [List.get?_eq_getElem?] at htiG
      simp [istep, htiG] at hstep
  | some pci =>
      have htiG := hti
      rw [List.get?_eq_getElem?] at htiG
      cases pci <;> simp [istep, htiG] at hstep
      case dWaitIdleWoken =>
      have hsame : ∀ pc0 : IPc, isIncr pc0 = false → isActive pc0 = false →
          m' = { m with tasks := m.tasks.set i pc0 } → IInv m' := by
        intro pc0 hi0 ha0 hm'
        subst hm'
        refine ⟨?_, ?_, ?_⟩
        · have hadd := countPSetAdd isIncr m.tasks i pc0 .dWaitIdleWoken hti
          rw [hi0] at hadd
          simp [isIncr] at hadd
          show m.sub.users = (m.tasks.set i pc0).countP isIncr
          rw [husers, hadd]
        · intro j pc h hact
          by_cases hij : i = j
          · subst hij
            rw [get?SetSelf m.tasks i pc0 (ltOfGet? m.tasks i _ hti)] at h
            cases h
            rw [hact] at ha0
            cases ha0
          · rw [get?SetNe m.tasks i j pc0 hij] at h
            exact hactive j pc h hact
        · exact hpos
      cases hst : m.sub.st with
      | Idle =>
          simp [hst, fsmSendInst, instanceSchema] at hstep
          subst hstep
          refine ⟨?_, ?_, ?_⟩
          · have hadd := countPSetAdd isIncr m.tasks i .dInDestroy .dWaitIdleWoken hti
            simp [isIncr] at hadd
            show m.sub.users = (m.tasks.set i .dInDestroy).countP isIncr
            rw [husers, hadd]
          · intro j pc h hact
            by_cases hij : i = j
            · subst hij
              rw [get?SetSelf m.tasks i .dInDestroy (ltOfGet? m.tasks i _ hti)] at h
              cases h
              cases hact
            · rw [get?SetNe m.tasks i j .dInDestroy hij] at h
              have hu := hactive j pc h hact
              rw [hst] at hu
              cases hu
          · intro h; cases h
      | Destroying =>
          simp [hst] at hstep
          exact hsame .dWaitDestroyed rfl rfl hstep.symm
      | Creating =>
          simp [hst] at hstep
          exact hsame .dDone rfl rfl hstep.symm
      | Using =>
          simp [hst] at hstep
          exact hsame .dDone rfl rfl hstep.symm
      | Destroyed =>
          simp [hst] at hstep
          exact hsame .dDone rfl rfl hstep.symm

theorem iinv_dFinish (m m' : InstM) (i : Nat)
    (hstep : istep m (.dFinish i) = .ok m') (hinv : IInv m) : IInv m' := by
  obtain ⟨husers, hactive, hpos⟩ := hinv
  cases hti : m.tasks.get? i with
  | none =>
      have htiG := hti
      rw [List.get?_eq_getElem?] at htiG
      simp [istep, htiG] at hstep
  | some pci =>
      have htiG := hti
      rw [List.get?_eq_getElem?] at htiG
      cases pci <;> simp [istep, htiG] at hstep
      case dInDestroy =>
      cases hcr : m.sub.creation <;> simp [hcr] at hstep
      cases hst : m.sub.st <;>
        simp [hst, fsmSendInst, instanceSchema] at hstep
      subst hstep
      refine ⟨?_, ?_, ?_⟩
      · have hadd := countPSetAdd isIncr m.tasks i .dDone .dInDestroy hti
        simp [isIncr] at hadd
        show m.sub.users = (m.tasks.set i .dDone).countP isIncr
        rw [husers, hadd]
      · intro j pc h hact
        by_cases hij : i = j
        · subst hij
          rw [get?SetSelf m.tasks i .dDone (ltOfGet? m.tasks i _ hti)] at h
          cases h
          cases hact
        · rw [get?SetNe m.tasks i j .dDone hij] at h
          have hu := hactive j pc h hact
          rw [hst] at hu
          cases hu
      · intro h; cases h

theorem iinv_dDestroyedWake (m m' : InstM) (i : Nat)
    (hstep : istep m (.dDestroyedWake i) = .ok m') (hinv : IInv m) : IInv m' := by
  obtain ⟨husers, hactive, hpos⟩ := hinv
  cases hti : m.tasks.get? i with
  | none =>
      have htiG := hti
      rw [List.get?_eq_getElem?] at htiG
      simp [istep, htiG] at hstep
  | some pci =>
      have htiG := hti
      rw [List.get?_eq_getElem?] at htiG
      cases pci <;> simp [istep, htiG] at hstep
      case dWaitDestroyed =>
      by_cases hst : m.sub.st = .Destroyed
      case neg => simp [hst] at hstep
      case pos =>
      simp [hst] at hstep
      subst hstep
      refine ⟨?_, ?_, ?_⟩
      · have hadd := countPSetAdd isIncr m.tasks i .dDone .dWaitDestroyed hti
        simp [isIncr] at hadd
        show m.sub.users = (m.tasks.set i .dDone).countP isIncr
        rw [husers, hadd]
      · intro j pc h hact
        by_cases hij : i = j
        · subst hij
          rw [get?SetSelf m.tasks i .dDone (ltOfGet? m.tasks i _ hti)] at h
          cases h
          cases hact
        · rw [get?SetNe m.tasks i j .dDone hij] at h
          exact hactive j pc h hact
      · exact hpos

/-- The invariant is preserved by every step of the instance machine. -/
theorem iinv_step (m m' : InstM) (a : IAct) (hstep : istep m a = .ok m')
    (hinv : IInv m) : IInv m' := by
  cases a with
  | startUse => exact iinv_startUse m m' hstep hinv
  | startDestroy => exact iinv_startDestroy m m' hstep hinv
  | creationResolve => exact iinv_creationResolve m m' hstep hinv
  | creationReject => exact iinv_creationReject m m' hstep hinv
  | resumeCreation i => exact iinv_resumeCreation m m' i hstep hinv
  | resumeValue i => exact iinv_resumeValue m m' i hstep hinv
  | fnComplete i => exact iinv_fnComplete m m' i hstep hinv
  | dIdleNotify i => exact iinv_dIdleNotify m m' i hstep hinv
  | dIdleRun i => exact iinv_dIdleRun m m' i hstep hinv
  | dFinish i => exact iinv_dFinish m m' i hstep hinv
  | dDestroyedWake i => exact iinv_dDestroyedWake m m' i hstep hinv

/-- The invariant holds along every run. -/
theorem iinv_run (m m' : InstM) (acts : List IAct) (hrun : irun m acts = .ok m')
    (hinv : IInv m) : IInv m' := by
  induction acts generalizing m with
  | nil => simp [irun] at hrun; rwa [← hrun]
  | cons a rest ih =>
      simp only [irun] at hrun
      cases hs : istep m a with
      | error e => rw [hs] at hrun; cases hrun
      | ok mm =>
          rw [hs] at hrun
          exact ih mm hrun (iinv_step m mm a hs hinv)

/-- Every reachable state of the instance machine satisfies the invariant. -/
theorem iinv_reachable (hasCb : Bool) (m : InstM) (h : IReachable hasCb m) : IInv m := by
  obtain ⟨acts, hrun⟩ := h
  exact iinv_run (instInit hasCb) m acts hrun (iinv_init hasCb)

/-- Whenever a step of the instance machine brings the user count to zero
from a positive value, the state was `Using` before the step and is `Idle`
after it. -/
theorem users_zero_transition (m m' : InstM) (a : IAct) (hstep : istep m a = .ok m')
    (hinv : IInv m) (hzero : m'.sub.users = 0) (hposu : 0 < m.sub.users) :
    m.sub.st = .Using ∧ m'.sub.st = .Idle := by
  obtain ⟨husers, hactive, hpos⟩ := hinv
  cases a with
  | fnComplete i =>
      cases hti : m.tasks.get? i with
      | none =>
          have htiG := hti
          rw [List.get?_eq_getElem?] at htiG
          simp [istep, htiG] at hstep
      | some pci =>
          have htiG := hti
          rw [List.get?_eq_getElem?] at htiG
          cases pci <;> simp [istep, htiG] at hstep
          case runningFn =>
          have hUsing : m.sub.st = .Using := hactive i .runningFn hti rfl
          by_cases hone : m.sub.users = 1
          · rw [if_pos hone, hUsing] at hstep
            simp [fsmSendInst, instanceSchema] at hstep
            subst hstep
            exact ⟨hUsing, rfl⟩
          · rw [if_neg hone] at hstep
            simp at hstep
            subst hstep
            exact absurd hzero (by show ¬ m.sub.users - 1 = 0; omega)
  | startUse =>
      cases hst : m.sub.st <;> simp [istep, instUseEnter, hst] at hstep <;>
        subst hstep <;>
        exact absurd hzero (by show ¬ m.sub.users + 1 = 0; omega)
  | startDestroy =>
      cases hst : m.sub.st <;>
        simp [istep, hst, fsmSendInst, instanceSchema] at hstep <;>
        subst hstep <;> exact absurd hzero (by show ¬ m.sub.users = 0; omega)
  | creationResolve =>
      cases hc : m.sub.creation <;> cases hst : m.sub.st <;>
        simp [istep, hc, hst, fsmSendInst, instanceSchema] at hstep
      subst hstep
      exact absurd hzero (by show ¬ m.sub.users = 0; omega)
  | creationReject =>
      cases hc : m.sub.creation <;> simp [istep, hc] at hstep
      subst hstep
      exact absurd hzero (by show ¬ m.sub.users = 0; omega)
  | resumeCreation i =>
      cases hti : m.tasks.get? i with
      | none =>
          have htiG := hti
          rw [List.get?_eq_getElem?] at htiG
          simp [istep, htiG] at hstep
      | some pci =>
          have htiG := hti
          rw [List.get?_eq_getElem?] at htiG
          cases pci <;> simp [istep, htiG] at hstep
          case awaitCreation =>
          cases hcr : m.sub.creation <;> cases hst : m.sub.st <;>
            simp [hcr, hst, fsmSendInst, instanceSchema] at hstep <;>
            subst hstep <;> exact absurd hzero (by show ¬ m.sub.users = 0; omega)
  | resumeValue i =>
      cases hti : m.tasks.get? i with
      | none =>
          have htiG := hti
          rw [List.get?_eq_getElem?] at htiG
          simp [istep, htiG] at hstep
      | some pci =>
          have htiG := hti
          rw [List.get?_eq_getElem?] at htiG
          cases pci <;> simp [istep, htiG] at hstep
          case awaitValue =>
          cases hcr : m.sub.creation <;> simp [hcr] at hstep <;>
            subst hstep <;> exact absurd hzero (by show ¬ m.sub.users = 0; omega)
  | dIdleNotify i =>
      cases hti : m.tasks.get? i with
      | none =>
          have htiG := hti
          rw [List.get?_eq_getElem?] at htiG
          simp [istep, htiG] at hstep
      | some pci =>
          have htiG := hti
          rw [List.get?_eq_getElem?] at htiG
          cases pci <;> simp [istep, htiG] at hstep
          case dWaitIdle =>
          by_cases hst : m.sub.st = .Idle
          case neg => simp [hst] at hstep
          case pos =>
            simp [hst] at hstep
            subst hstep
            exact absurd hzero (by show ¬ m.sub.users = 0; omega)
  | dIdleRun i =>
      cases hti : m.tasks.get? i with
      | none =>
          have htiG := hti
          rw [List.get?_eq_getElem?] at htiG
          simp [istep, htiG] at hstep
      | some pci =>
          have htiG := hti
          rw [List.get?_eq_getElem?] at htiG
          cases pci <;> simp [istep, htiG] at hstep
          case dWaitIdleWoken =>
          cases hst : m.sub.st <;>
            simp [hst, fsmSendInst, instanceSchema] at hstep <;>
            subst hstep <;> exact absurd hzero (by show ¬ m.sub.users = 0; omega)
  | dFinish i =>
      cases hti : m.tasks.get? i with
      | none =>
          have htiG := hti
          rw [List.get?_eq_getElem?] at htiG
          simp [istep, htiG] at hstep
      | some pci =>
          have htiG := hti
          rw [List.get?_eq_getElem?] at htiG
          cases pci <;> simp [istep, htiG] at hstep
          case dInDestroy =>
          cases hcr : m.sub.creation <;> simp [hcr] at hstep
          cases hst : m.sub.st <;>
            simp [hst, fsmSendInst, instanceSchema] at hstep
          subst hstep
          exact absurd hzero (by show ¬ m.sub.users = 0; omega)
  | dDestroyedWake i =>
      cases hti : m.tasks.get? i with
      | none =>
          have htiG := hti
          rw [List.get?_eq_getElem?] at htiG
          simp [istep, htiG] at hstep
      | some pci =>
          have htiG := hti
          rw [List.get?_eq_getElem?] at htiG
          cases pci <;> simp [istep, htiG] at hstep
          case dWaitDestroyed =>
          by_cases hst : m.sub.st = .Destroyed
          case neg => simp [hst] at hstep
          case pos =>
            simp [hst] at hstep
            subst hstep
            exact absurd hzero (by show ¬ m.sub.users = 0; omega)

/-! ### Claims about the Instance (C6, C7) -/

/-- State of the instance machine after a single `use` call arrives while
creation is still pending. -/
def c6BadState : InstM :=
  { sub := { st := .Creating, users := 1, creation := .pending }
    tasks := [.awaitCreation]
    destroyCalls := 0
    hasCb := true }

/-- C6 (counterexample): the claim states that the user count is strictly
positive if and only if the state is `Using`.  This is false: `Instance.use`
increments `_users` before awaiting creation, so after one `use` call on a
still-creating instance the machine is in the reachable state `c6BadState`
with `users = 1 > 0` while the lifecycle state is `Creating`, not `Using`. -/
theorem C6_counterexample :
    irun (instInit true) [.startUse] = .ok c6BadState
    ∧ 0 < c6BadState.sub.users ∧ c6BadState.sub.st ≠ .Using := by
  refine ⟨by rfl, by decide, by decide⟩

/-- C6 (amended): for every reachable state of an Instance, state `Using`
implies a strictly positive user count (the converse fails, see the
counterexample: the count can be positive in `Creating` as well); and the
count reaches zero only by a step taken while in `Using`, and that step
moves the state to `Idle`. -/
theorem C6_amended (cb : Bool) (m : InstM) (h : IReachable cb m) :
    (m.sub.st = .Using → 0 < m.sub.users) ∧
    (∀ a m', istep m a = .ok m' → m'.sub.users = 0 → 0 < m.sub.users →
      m.sub.st = .Using ∧ m'.sub.st = .Idle) := by
  have hinv := iinv_reachable cb m h
  exact ⟨hinv.usingPos,
         fun a m' hs hz hp => users_zero_transition m m' a hs hinv hz hp⟩

/-- Reachable state with one user running `fn`, used to witness `C6_amended`. -/
def c6WitState : InstM :=
  { sub := { st := .Using, users := 1, creation := .resolved }
    tasks := [.runningFn]
    destroyCalls := 0
    hasCb := true }

/-- State of `c6WitState` after its single user's `fn` settles: the count
drops to zero and the instance returns to `Idle`. -/
def c6AfterState : InstM :=
  { sub := { st := .Idle, users := 0, creation := .resolved }
    tasks := [.idone]
    destroyCalls := 0
    hasCb := true }

theorem C6_witness :
    0 < c6WitState.sub.users ∧ c6WitState.sub.st = .Using ∧
    c6AfterState.sub.st = .Idle := by
  have h := C6_amended true c6WitState
    ⟨[.startUse, .creationResolve, .resumeCreation 0, .resumeValue 0], by rfl⟩
  have h2 := h.2 (.fnComplete 0) c6AfterState (by rfl) (by rfl) (by decide)
  exact ⟨by decide, h2.1, h2.2⟩

/-- C7: `Instance.use` fails immediately with the `notAvailable` assertion
whenever the state is `Destroying` or `Destroyed`: the synchronous entry of
`use` returns the assertion error, and the machine step produces no
successor state — in particular no task is created, so `fn` (which only runs
from the `runningFn` counter) is never invoked for such a call. -/
theorem C7_use_rejected_when_tearing_down (m : InstM)
    (h : m.sub.st = .Destroying ∨ m.sub.st = .Destroyed) :
    instUseEnter m.sub = .error .notAvailable ∧
    istep m .startUse = .error .notAvailable := by
  rcases h with h | h <;>
    exact ⟨by simp [instUseEnter, h], by simp [istep, instUseEnter, h]⟩

/-- An instance mid-teardown, used to witness `C7`. -/
def c7M : InstM :=
  { sub := { st := .Destroying, users := 0, creation := .resolved }
    tasks := [.dInDestroy]
    destroyCalls := 0
    hasCb := false }

theorem C7_witness :
    instUseEnter c7M.sub = .error .notAvailable ∧
    istep c7M .startUse = .error .notAvailable :=
  C7_use_rejected_when_tearing_down c7M (Or.inl rfl)

/-! ### Properties of the candidate selection -/

/-- The `reduce` step of the selection returns a member of the candidate
list. -/
theorem foldlMin_mem (h : Item) (t : List Item) :
    t.foldl (fun previous current =>
      if current.sub.users < previous.sub.users then current else previous) h
      ∈ h :: t := by
  induction t generalizing h with
  | nil => simp
  | cons a as ih =>
      simp only [List.foldl]
      by_cases hc : a.sub.users < h.sub.users
      · rw [if_pos hc]
        rcases List.mem_cons.mp (ih a) with hm | hm
        · rw [hm]
          exact List.mem_cons_of_mem h (List.mem_cons_self a as)
        · exact List.mem_cons_of_mem h (List.mem_cons_of_mem a hm)
      · rw [if_neg hc]
        rcases List.mem_cons.mp (ih h) with hm | hm
        · rw [hm]
          exact List.mem_cons_self h (a :: as)
        · exact List.mem_cons_of_mem h (List.mem_cons_of_mem a hm)

/-- The `reduce` step of the selection returns an element whose user count
is minimal among the candidates. -/
theorem foldlMin_le (t : List Item) : ∀ h y : Item, y ∈ h :: t →
    (t.foldl (fun previous current =>
      if current.sub.users < previous.sub.users then current else previous) h).sub.users
      ≤ y.sub.users := by
  induction t with
  | nil =>
      intro h y hy
      simp at hy
      subst hy
      simp
  | cons a as ih =>
      intro h y hy
      simp only [List.foldl]
      rcases List.mem_cons.mp hy with hy1 | hy2
      · subst hy1
        by_cases hc : a.sub.users < y.sub.users
        · rw [if_pos hc]
          exact Nat.le_trans (ih a a (List.mem_cons_self a as)) (Nat.le_of_lt hc)
        · rw [if_neg hc]
          exact ih y y (List.mem_cons_self y as)
      · rcases List.mem_cons.mp hy2 with hy1 | hy3
        · subst hy1
          by_cases hc : y.sub.users < h.sub.users
          · rw [if_pos hc]
            exact ih y y (List.mem_cons_self y as)
          · rw [if_neg hc]
            exact Nat.le_trans (ih h h (List.mem_cons_self h as)) (Nat.le_of_not_lt hc)
        · by_cases hc : a.sub.users < h.sub.users
          · rw [if_pos hc]
            exact ih a y (List.mem_cons_of_mem a hy3)
          · rw [if_neg hc]
            exact ih h y (List.mem_cons_of_mem h hy3)

/-- Specification of the candidate selection of `Pool.use`: a selected item
is an eligible member (spare concurrency) with the fewest current users. -/
theorem selectCandidate_spec (items : List Item) (c : Nat) (it : Item)
    (h : selectCandidate items c = some it) :
    it ∈ items ∧ it.sub.users < c ∧
      ∀ y ∈ items, y.sub.users < c → it.sub.users ≤ y.sub.users := by
  unfold selectCandidate at h
  cases hf : items.filter (fun i => i.sub.users < c) with
  | nil => rw [hf] at h; cases h
  | cons hd tl =>
      rw [hf] at h
      simp only [Option.some.injEq] at h
      subst h
      have hmem : (tl.foldl (fun previous current =>
          if current.sub.users < previous.sub.users then current else previous) hd)
          ∈ hd :: tl := foldlMin_mem hd tl
      rw [← hf] at hmem
      have hel := List.mem_filter.mp hmem
      refine ⟨hel.1, by simpa using hel.2, ?_⟩
      intro y hy hyc
      have hyf : y ∈ hd :: tl := by
        rw [← hf]
        exact List.mem_filter.mpr ⟨hy, by simpa using hyc⟩
      exact foldlMin_le tl hd y hyf

/-- When the selection returns nothing, no active item has spare
concurrency. -/
theorem selectCandidate_none (items : List Item) (c : Nat)
    (h : selectCandidate items c = none) :
    ∀ y ∈ items, ¬ y.sub.users < c := by
  unfold selectCandidate at h
  cases hf : items.filter (fun i => i.sub.users < c) with
  | nil =>
      intro y hy hyc
      have : y ∈ items.filter (fun i => i.sub.users < c) :=
        List.mem_filter.mpr ⟨hy, by simpa using hyc⟩
      rw [hf] at this
      cases this
  | cons hd tl => rw [hf] at h; cases h

/-! ### Helper lemmas about the pool step function -/

theorem findNoneOfFresh (l : List Item) (iid : Nat) (h : ∀ it ∈ l, it.iid ≠ iid) :
    l.find? (fun i => i.iid = iid) = none := by
  rw [List.find?_eq_none]
  intro x hx
  simp [h x hx]

theorem updItemFresh (l : List Item) (iid : Nat) (f : Item → Item)
    (h : ∀ it ∈ l, it.iid ≠ iid) : updItem l iid f = l := by
  induction l with
  | nil => rfl
  | cons a as ih =>
      have ha := h a (List.mem_cons_self a as)
      simp only [updItem, List.map, if_neg ha]
      have := ih (fun it hit => h it (List.mem_cons_of_mem a hit))
      simpa [updItem] using this

theorem updItemAppend (l1 l2 : List Item) (iid : Nat) (f : Item → Item) :
    updItem (l1 ++ l2) iid f = updItem l1 iid f ++ updItem l2 iid f := by
  simp [updItem]

/-- `useItemCore` only touches the items; every other component of the pool
is unchanged. -/
theorem useItemCore_frame (p : PM) (iid : Nat) (p' : PM) (pc : PPc)
    (h : useItemCore p iid = .ok (p', pc)) :
    p'.fsm = p.fsm ∧ p'.queue = p.queue ∧ p'.tasks = p.tasks ∧
    p'.destroyLog = p.destroyLog ∧ p'.rejections = p.rejections ∧
    p'.nextIid = p.nextIid ∧ p'.maxI = p.maxI ∧ p'.minI = p.minI ∧
    p'.idleT = p.idleT ∧ p'.conc = p.conc ∧ p'.hasCb = p.hasCb := by
  unfold useItemCore at h
  split at h
  · cases h
  · split at h
    · simp only [Except.ok.injEq, Prod.mk.injEq] at h
      obtain ⟨h1, h2⟩ := h
      subst h1
      exact ⟨rfl, rfl, rfl, rfl, rfl, rfl, rfl, rfl, rfl, rfl, rfl⟩
    · cases h
    · split at h
      · simp only [Except.ok.injEq, Prod.mk.injEq] at h
        obtain ⟨h1, h2⟩ := h
        subst h1
        exact ⟨rfl, rfl, rfl, rfl, rfl, rfl, rfl, rfl, rfl, rfl, rfl⟩
      · simp only [Except.ok.injEq, Prod.mk.injEq] at h
        obtain ⟨h1, h2⟩ := h
        subst h1
        exact ⟨rfl, rfl, rfl, rfl, rfl, rfl, rfl, rfl, rfl, rfl, rfl⟩

/-- `deleteInstanceP` on an `Idle` item: the item leaves the active set, its
instance is destroyed, and the destroy callback (when configured) is
recorded exactly once. -/
theorem deleteInstanceP_spec (p : PM) (iid : Nat) (it : Item)
    (hit : p.items.find? (fun i => i.iid = iid) = some it)
    (hidle : it.sub.st = .Idle) :
    deleteInstanceP p iid = .ok { p with
      items := updItem p.items iid
        (fun i => { i with inPool := false, sub := { it.sub with st := .Destroyed } })
      destroyLog := p.destroyLog ++ (if p.hasCb then [iid] else []) } := by
  unfold deleteInstanceP
  rw [hit]
  simp [destroyInstanceSub, hidle]

/-- Release protocol, queue non-empty: the earliest waiter is dequeued and
handed the released item; nothing else changes. -/
theorem stepFinally_handoff (p : PM) (t w iid : Nat) (o : Outcome) (rest : List Nat)
    (hq : p.queue = w :: rest)
    (ht : p.tasks.get? t = some (.poolFinally iid o))
    (hw : p.tasks.get? w = some .inQueue) :
    pstep p (.stepFinally t) = .ok { p with
      queue := rest
      tasks := (p.tasks.set w (.useItemStart iid)).set t (.taskDone o) } := by
  have htG := ht
  rw [List.get?_eq_getElem?] at htG
  have hwG := hw
  rw [List.get?_eq_getElem?] at hwG
  simp [pstep, htG, hq, hwG]

/-- Release protocol, queue empty and the item not evictable (still has
users, or the pool is at or below `minInstances`): the pool is left
unchanged except for the completing task. -/
theorem stepFinally_keep (p : PM) (t iid : Nat) (o : Outcome) (it : Item)
    (hq : p.queue = [])
    (ht : p.tasks.get? t = some (.poolFinally iid o))
    (hit : p.items.find? (fun i => i.iid = iid) = some it)
    (hkeep : ¬ (it.sub.users = 0 ∧ p.minI < poolSize p)) :
    pstep p (.stepFinally t) = .ok { p with tasks := p.tasks.set t (.taskDone o) } := by
  have htG := ht
  rw [List.get?_eq_getElem?] at htG
  simp [pstep, htG, hq, hit, hkeep]

/-- Release protocol, queue empty, item idle and evictable, `idleTimeout`
zero: the item is deleted and its instance destroyed within the very step
that completes `use`. -/
theorem stepFinally_evictNow (p : PM) (t iid : Nat) (o : Outcome) (it : Item)
    (hq : p.queue = [])
    (ht : p.tasks.get? t = some (.poolFinally iid o))
    (hit : p.items.find? (fun i => i.iid = iid) = some it)
    (hu : it.sub.users = 0) (hmin : p.minI < poolSize p)
    (hidle : p.idleT = 0) (hst : it.sub.st = .Idle) :
    pstep p (.stepFinally t) = .ok { p with
      items := updItem p.items iid
        (fun i => { i with inPool := false, sub := { it.sub with st := .Destroyed } })
      destroyLog := p.destroyLog ++ (if p.hasCb then [iid] else [])
      tasks := p.tasks.set t (.taskDone o) } := by
  have htG := ht
  rw [List.get?_eq_getElem?] at htG
  simp [pstep, htG, hq, hit, hu, hmin, hidle, deleteInstanceP_spec p iid it hit hst]

/-- Release protocol, queue empty, item evictable, positive `idleTimeout`:
a deletion is scheduled on the item (the cancellation handle is stored);
nothing is destroyed. -/
theorem stepFinally_schedule (p : PM) (t iid : Nat) (o : Outcome) (it : Item)
    (hq : p.queue = [])
    (ht : p.tasks.get? t = some (.poolFinally iid o))
    (hit : p.items.find? (fun i => i.iid = iid) = some it)
    (hu : it.sub.users = 0) (hmin : p.minI < poolSize p)
    (hidle : 0 < p.idleT) :
    pstep p (.stepFinally t) = .ok { p with
      items := updItem p.items iid (fun i => { i with sched := true })
      tasks := p.tasks.set t (.taskDone o) } := by
  have htG := ht
  rw [List.get?_eq_getElem?] at htG
  simp [pstep, htG, hq, hit, hu, hmin, hidle]

theorem mapFreshId (l : List Item) (iid : Nat) (f : Item → Item)
    (hf : ∀ it : Item, it.iid ≠ iid → f it = it)
    (h : ∀ it ∈ l, it.iid ≠ iid) : l.map f = l := by
  induction l with
  | nil => rfl
  | cons a as ih =>
      rw [List.map_cons, hf a (h a (List.mem_cons_self a as)),
          ih (fun it hit => h it (List.mem_cons_of_mem a hit))]

theorem find?AppendOfNone {α : Type} (pd : α → Bool) (l1 l2 : List α)
    (h : l1.find? pd = none) : (l1 ++ l2).find? pd = l2.find? pd := by
  induction l1 with
  | nil => rfl
  | cons a as ih =>
      by_cases ha : pd a
      · rw [List.find?_cons_of_pos _ ha] at h
        cases h
      · rw [List.find?_cons_of_neg _ ha] at h
        simpa [List.find?_cons_of_neg _ ha] using ih h

/-- A freshly grown item right after `Pool.use` created it and entered
`Instance.use`: one user, creation pending. -/
def freshItem (n : Nat) : Item :=
  { iid := n
    sub := { st := .Creating, users := 1, creation := .pending }
    sched := false
    inPool := true }

/-- `Pool.use` when no active item qualifies and the pool is below
`maxInstances`: a new instance is created, added to the active set, and the
calling task suspends on its creation. -/
theorem spawnUse_grow (p : PM)
    (hsel : selectCandidate (activeItems p) p.conc = none)
    (hsz : sizeLt (poolSize p) p.maxI = true)
    (hfresh : ∀ it ∈ p.items, it.iid ≠ p.nextIid) :
    pstep p .spawnUse = .ok { p with
      items := p.items ++ [freshItem p.nextIid]
      nextIid := p.nextIid + 1
      tasks := p.tasks ++ [.awaitCreation p.nextIid] } := by
  have hnone : p.items.find? (fun i => i.iid = p.nextIid) = none :=
    findNoneOfFresh p.items p.nextIid hfresh
  simp only [pstep, hsel]
  rw [if_pos hsz]
  simp only [useItemCore]
  rw [show (({ p with
        items := p.items ++ [{ iid := p.nextIid
                               sub := { st := .Creating, users := 0, creation := .pending }
                               sched := false
                               inPool := true }]
        nextIid := p.nextIid + 1 } : PM)).items.find? (fun i => i.iid = p.nextIid)
      = some { iid := p.nextIid
               sub := { st := .Creating, users := 0, creation := .pending }
               sched := false
               inPool := true } from by
    rw [find?AppendOfNone _ _ _ hnone]
    simp [List.find?]]
  simp only [instUseEnter]
  simp only [updItemAppend, updItem, List.map_map, List.map_append, List.map_cons,
    List.map_nil]
  rw [mapFreshId p.items p.nextIid _ (fun it hne => by simp [Function.comp, hne]) hfresh]
  simp [freshItem, Function.comp]

/-- `Pool.use` when no active item qualifies and the pool is at
`maxInstances`: the caller is enqueued at the back of the waiting queue. -/
theorem spawnUse_enqueue (p : PM)
    (hsel : selectCandidate (activeItems p) p.conc = none)
    (hsz : sizeLt (poolSize p) p.maxI = false) :
    pstep p .spawnUse = .ok { p with
      queue := p.queue ++ [p.tasks.length]
      tasks := p.tasks ++ [.inQueue] } := by
  simp [pstep, hsel, hsz]

/-- `Pool.destroy` entry: from `Running` the pool moves to `Destroying` and
the teardown loop begins. -/
theorem spawnDestroy_fromRunning (p : PM) (h : p.fsm = .Running) :
    pstep p .spawnDestroy = .ok { p with
      fsm := .Destroying
      tasks := p.tasks ++ [.destroyLoop 0] } := by
  simp [pstep, fsmSendPool, poolSchema, h]

/-- The destroy loop cannot pass an item whose instance is in use: the
`await item.instance.destroy()` suspends until the in-flight use ends. -/
theorem destroyStep_waits (p : PM) (t k : Nat) (it : Item)
    (ht : p.tasks.get? t = some (.destroyLoop k))
    (hk : (activeItems p).get? k = some it)
    (hst : it.sub.st = .Using) :
    pstep p (.destroyStep t) = .error .notEnabled := by
  have htG := ht
  rw [List.get?_eq_getElem?] at htG
  have hkG := hk
  rw [List.get?_eq_getElem?] at hkG
  simp [pstep, htG, hkG, hst]

/-- One iteration of the destroy loop on an idle item: the instance is
destroyed (callback recorded when configured) and the loop advances; the
item stays in the set until the final clear. -/
theorem destroyStep_idle (p : PM) (t k : Nat) (it : Item)
    (ht : p.tasks.get? t = some (.destroyLoop k))
    (hk : (activeItems p).get? k = some it)
    (hst : it.sub.st = .Idle) :
    pstep p (.destroyStep t) = .ok { p with
      items := updItem p.items it.iid
        (fun i => { i with sub := { it.sub with st := .Destroyed } })
      destroyLog := p.destroyLog ++ (if p.hasCb then [it.iid] else [])
      tasks := p.tasks.set t (.destroyLoop (k + 1)) } := by
  have htG := ht
  rw [List.get?_eq_getElem?] at htG
  have hkG := hk
  rw [List.get?_eq_getElem?] at hkG
  simp [pstep, htG, hkG, hst, destroyInstanceSub]

/-- The synchronous tail of `Pool.destroy` once the loop has passed every
active item: the active set is cleared, every queued waiter is rejected with
the unavailable-pool outcome in queue (FIFO) order, and only now the pool
transitions `Destroying → Destroyed`. -/
theorem destroyStep_finish (p : PM) (t k : Nat)
    (ht : p.tasks.get? t = some (.destroyLoop k))
    (hk : (activeItems p).get? k = none)
    (hfsm : p.fsm = .Destroying) :
    pstep p (.destroyStep t) = .ok { p with
      fsm := .Destroyed
      items := p.items.map (fun i => { i with inPool := false })
      queue := []
      rejections := p.rejections ++ p.queue
      tasks := (drainAll p.tasks p.queue).set t (.taskDone .destroyDone) } := by
  have htG := ht
  rw [List.get?_eq_getElem?] at htG
  have hkG := hk
  rw [List.get?_eq_getElem?] at hkG
  simp [pstep, htG, hkG, hfsm, fsmSendPool, poolSchema]

/-- Draining the queue rejects every queued task with the unavailable-pool
outcome. -/
theorem drainAll_get? (tasks : List PPc) (ws : List Nat) (w : Nat)
    (hw : w ∈ ws ∨ tasks.get? w = some (.taskDone .unavailable))
    (hlen : w < tasks.length) :
    (drainAll tasks ws).get? w = some (.taskDone .unavailable) := by
  induction ws generalizing tasks with
  | nil =>
      rcases hw with hw | hw
      · cases hw
      · simpa [drainAll] using hw
  | cons v vs ih =>
      simp only [drainAll]
      apply ih
      · rcases hw with hw | hw
        · rcases List.mem_cons.mp hw with hv | hv
          · subst hv
            right
            exact get?SetSelf tasks w _ hlen
          · left; exact hv
        · by_cases hvw : v = w
          · subst hvw
            right
            exact get?SetSelf tasks v _ hlen
          · right
            rw [get?SetNe tasks v w _ hvw]
            exact hw
      · rw [List.length_set]
        exact hlen

/-- The idle-deletion timer cannot fire once its cancellation handle has
been invoked (`sched = false`). -/
theorem timerFire_cancelled (p : PM) (iid : Nat) (it : Item)
    (hit : p.items.find? (fun i => i.iid = iid) = some it)
    (hs : it.sched = false) :
    pstep p (.timerFire iid) = .error .notEnabled := by
  simp [pstep, hit, hs]

/-- Claiming an item in `useItem` (either path of `Pool.use`, or a handed
waiter) invokes and clears the scheduled-deletion handle: afterwards the
item's `sched` flag is false. -/
theorem useItemCore_cancels (p : PM) (iid : Nat) (p' : PM) (pc : PPc)
    (h : useItemCore p iid = .ok (p', pc)) :
    ∀ it ∈ p'.items, it.iid = iid → it.sched = false := by
  unfold useItemCore at h
  split at h
  · cases h
  case h_2 it0 hit0 =>
    split at h
    · simp only [Except.ok.injEq, Prod.mk.injEq] at h
      obtain ⟨h1, h2⟩ := h
      subst h1
      intro it hmem hiid
      simp only [updItem, List.mem_map] at hmem
      obtain ⟨j, hj, hjeq⟩ := hmem
      by_cases hji : j.iid = iid
      · rw [if_pos hji] at hjeq
        rw [← hjeq]
      · rw [if_neg hji] at hjeq
        rw [← hjeq] at hiid
        exact absurd hiid hji
    · cases h
    · split at h <;>
      · simp only [Except.ok.injEq, Prod.mk.injEq] at h
        obtain ⟨h1, h2⟩ := h
        subst h1
        intro it hmem hiid
        simp only [updItem, List.mem_map] at hmem
        obtain ⟨j, hj, hjeq⟩ := hmem
        obtain ⟨j2, hj2, hj2eq⟩ := hj
        by_cases hji : j2.iid = iid
        · rw [if_pos hji] at hj2eq
          by_cases hji2 : j.iid = iid
          · rw [if_pos hji2] at hjeq
            rw [← hjeq]
            show j.sched = false
            rw [← hj2eq]
          · exfalso
            apply hji2
            rw [← hj2eq]
            exact hji
        · rw [if_neg hji] at hj2eq
          by_cases hji2 : j.iid = iid
          · exfalso
            apply hji
            rw [hj2eq]
            exact hji2
          · rw [if_neg hji2] at hjeq
            exfalso
            apply hji2
            rw [hjeq]
            exact hiid

/-- Creation rejection observed by a suspended `use` task: the rejection
propagates into `useItem`'s finally (`createErr` outcome) and the user count
is not decremented (the pool state is otherwise untouched). -/
theorem resumeCreation_rejected (p : PM) (t iid : Nat) (it : Item)
    (ht : p.tasks.get? t = some (.awaitCreation iid))
    (hit : p.items.find? (fun i => i.iid = iid) = some it)
    (hr : it.sub.creation = .rejected) :
    pstep p (.resumeCreation t) = .ok { p with
      tasks := p.tasks.set t (.poolFinally iid .createErr) } := by
  have htG := ht
  rw [List.get?_eq_getElem?] at htG
  simp [pstep, htG, hit, hr]

/-- A dequeued waiter resuming with its handed item delegates to `useItem`:
the resulting pool is the one `useItemCore` computes, with the waiter's task
moved to the program counter `useItemCore` returns. -/
theorem useItemGo_runs (p : PM) (t iid : Nat) (p' : PM) (pc : PPc)
    (ht : p.tasks.get? t = some (.useItemStart iid))
    (hc : useItemCore p iid = .ok (p', pc)) :
    pstep p (.useItemGo t) = .ok { p' with tasks := p'.tasks.set t pc } := by
  have htG := ht
  rw [List.get?_eq_getElem?] at htG
  simp [pstep, htG, hc]

/-- `deleteInstanceP` only touches the items and the destroy log. -/
theorem deleteInstanceP_frame (p : PM) (iid : Nat) (p' : PM)
    (h : deleteInstanceP p iid = .ok p') :
    p'.fsm = p.fsm ∧ p'.queue = p.queue ∧ p'.tasks = p.tasks ∧
    p'.rejections = p.rejections := by
  unfold deleteInstanceP at h
  split at h
  · cases h
  · split at h
    · cases h
    · simp only [Except.ok.injEq] at h
      subst h
      exact ⟨rfl, rfl, rfl, rfl⟩

/-- The pool's own state machine changes only along
`Running → Destroying → Destroyed`: `Destroying` is entered by the
`fsm.send('destroy')` at the top of `Pool.destroy`, and `Destroyed` only by
the final `fsm.send('destroyed')` of the teardown tail — no other step
touches the pool state. -/
theorem fsm_changes (p : PM) (a : PAct) (p' : PM) (h : pstep p a = .ok p')
    (hne : p.fsm ≠ p'.fsm) :
    (p.fsm = .Running ∧ p'.fsm = .Destroying) ∨
    (p.fsm = .Destroying ∧ p'.fsm = .Destroyed) := by
  cases a with
  | spawnUse =>
      exfalso
      apply hne
      simp only [pstep] at h
      split at h
      · split at h
        · cases h
        case h_2 p1 pc hcore =>
          simp only [Except.ok.injEq] at h
          rw [← h]
          exact ((useItemCore_frame p _ p1 pc hcore).1).symm
      · split at h
        · split at h
          · cases h
          case h_2 p1 pc hcore =>
            simp only [Except.ok.injEq] at h
            rw [← h]
            have := (useItemCore_frame _ _ p1 pc hcore).1
            rw [this]
        · simp only [Except.ok.injEq] at h
          rw [← h]
  | spawnDestroy =>
      simp only [pstep] at h
      cases hf : p.fsm <;> simp [fsmSendPool, poolSchema, hf] at h
      left
      exact ⟨rfl, by rw [← h]⟩
  | creationResolve iid =>
      exfalso
      apply hne
      simp only [pstep] at h
      split at h
      · cases h
      · split at h
        · split at h
          · cases h
          · simp only [Except.ok.injEq] at h
            rw [← h]
        · cases h
  | creationReject iid =>
      exfalso
      apply hne
      simp only [pstep] at h
      split at h
      · cases h
      · split at h
        · simp only [Except.ok.injEq] at h
          rw [← h]
        · cases h
  | resumeCreation t =>
      exfalso
      apply hne
      simp only [pstep] at h
      split at h
      · split at h
        · cases h
        · split at h
          · cases h
          · simp only [Except.ok.injEq] at h
            rw [← h]
          · split at h
            · split at h
              · cases h
              · simp only [Except.ok.injEq] at h
                rw [← h]
            · simp only [Except.ok.injEq] at h
              rw [← h]
            · simp only [Except.ok.injEq] at h
              rw [← h]
      · cases h
  | resumeValue t =>
      exfalso
      apply hne
      simp only [pstep] at h
      split at h
      · split at h
        · cases h
        · split at h
          · cases h
          · simp only [Except.ok.injEq] at h
            rw [← h]
          · simp only [Except.ok.injEq] at h
            rw [← h]
      · cases h
  | fnComplete t ok =>
      exfalso
      apply hne
      simp only [pstep] at h
      split at h
      · split at h
        · cases h
        · split at h
          · split at h
            · cases h
            · simp only [Except.ok.injEq] at h
              rw [← h]
          · simp only [Except.ok.injEq] at h
            rw [← h]
      · cases h
  | stepFinally t =>
      exfalso
      apply hne
      simp only [pstep] at h
      split at h
      · split at h
        · split at h
          · simp only [Except.ok.injEq] at h
            rw [← h]
          · cases h
        · split at h
          · cases h
          · split at h
            · split at h
              · simp only [Except.ok.injEq] at h
                rw [← h]
              · split at h
                · cases h
                case h_2 p1 hdel =>
                  simp only [Except.ok.injEq] at h
                  rw [← h]
                  exact ((deleteInstanceP_frame p _ p1 hdel).1).symm
            · simp only [Except.ok.injEq] at h
              rw [← h]
      · cases h
  | useItemGo t =>
      exfalso
      apply hne
      simp only [pstep] at h
      split at h
      · split at h
        · cases h
        case h_2 p1 pc hcore =>
          simp only [Except.ok.injEq] at h
          rw [← h]
          exact ((useItemCore_frame p _ p1 pc hcore).1).symm
      · cases h
  | timerFire iid =>
      exfalso
      apply hne
      simp only [pstep] at h
      split at h
      · cases h
      · split at h
        · split at h
          · cases h
          case h_2 p1 hdel =>
            simp only [Except.ok.injEq] at h
            rw [← h]
            exact ((deleteInstanceP_frame p _ p1 hdel).1).symm
        · cases h
  | destroyStep t =>
      simp only [pstep] at h
      split at h
      · split at h
        · split at h
          · split at h
            · cases h
            · exfalso
              apply hne
              simp only [Except.ok.injEq] at h
              rw [← h]
          · exfalso
            apply hne
            simp only [Except.ok.injEq] at h
            rw [← h]
          · cases h
        · cases hf : p.fsm <;> simp [fsmSendPool, poolSchema, hf] at h
          right
          refine ⟨rfl, ?_⟩
          rw [← h]
      · cases h

/-! ### Claims about the Pool (C1 - C5, C8 - C10) -/

/-- Pool configured with `maxInstances = 1`, `concurrencyPerInstance = 1`,
`minInstances = 0`, `idleTimeout = 0`. -/
def c1Init : PM := poolInit (some 1) 0 0 1 false

/-- A schedule of `Pool.use` calls realizable on the JS microtask queue.
Task 0 (A) creates item 0 and uses it; task 1 (B) finds the pool saturated
and queues; when A's `fn` settles, the decrement of `_users` (in
`Instance.use`'s finally) and the hand-off to B (in `useItem`'s finally) run
in two separate microtasks; task 2 (E) is spawned from a continuation queued
between them, sees `users = 0`, and claims item 0 directly; A's finally then
still hands item 0 to B. -/
def c1Acts : List PAct :=
  [ .spawnUse
  , .spawnUse
  , .creationResolve 0
  , .resumeCreation 0
  , .resumeValue 0
  , .fnComplete 0 true
  , .spawnUse
  , .stepFinally 0
  , .resumeValue 2
  , .useItemGo 1
  , .resumeValue 1 ]

/-- C1 (the code violates the claim): with `concurrencyPerInstance = 1`,
the schedule `c1Acts` — every step of which corresponds to a real microtask
ordering of the library — ends with two distinct `use` calls (tasks 1 and 2)
both executing their `fn` against the value of item 0 at the same time, and
the instance's user count at 2. -/
theorem C1_two_fns_share_one_instance :
    c1Init.conc = 1 ∧
    (prun c1Init c1Acts).map (fun m => runningOn m 0) = .ok 2 ∧
    (prun c1Init c1Acts).map
      (fun m => (m.items.map (fun it => it.sub.users), m.tasks.get? 1, m.tasks.get? 2))
      = .ok ([2], some (.runningFn 0), some (.runningFn 0)) := by
  refine ⟨rfl, by rfl, by rfl⟩

/-- A pool with default configuration (`maxInstances = Infinity`) and a
configured destroy callback. -/
def c8Init : PM := poolInit none 0 0 1 true

/-- Destroy the (empty) pool: `fsm.send('destroy')`, then the loop body
finds no item and runs the teardown tail. -/
def c8DestroyActs : List PAct := [.spawnDestroy, .destroyStep 0]

/-- A complete `Pool.use` call issued after the destroy: task 1 creates a
fresh instance, runs `fn` on it, and is released normally. -/
def c8LateUse : List PAct :=
  [ .spawnUse
  , .creationResolve 0
  , .resumeCreation 1
  , .resumeValue 1
  , .fnComplete 1 true
  , .stepFinally 1 ]

/-- C8 (the code violates the claim): `Pool.use` never consults the pool's
state machine, so a call made after `destroy()` has fully completed (pool
state `Destroyed`) is serviced normally — a fresh instance is created and
`fn` runs to completion with outcome `ok` — instead of being rejected with
the unavailable-pool error; no rejection is recorded for it. -/
theorem C8_use_after_destroy_is_serviced :
    (prun c8Init c8DestroyActs).map (fun m => m.fsm) = .ok .Destroyed ∧
    (prun c8Init (c8DestroyActs ++ c8LateUse)).map
      (fun m => (m.fsm, m.tasks.get? 1, m.rejections))
      = .ok (.Destroyed, some (.taskDone .ok), []) := by
  exact ⟨by rfl, by rfl⟩

/-- Start of a pool whose only `use` call hits a rejecting `create`. -/
def c9Init : PM := poolInit none 0 0 1 true

/-- Task 0 creates item 0 and suspends on its creation; the creation
rejects; the task resumes with the rejection and runs its release
protocol. -/
def c9Acts : List PAct :=
  [.spawnUse, .creationReject 0, .resumeCreation 0, .stepFinally 0]

/-- C9: when the `create` callback rejects, the `Pool.use` call that
triggered the creation settles with the creation error (`createErr`), yet
the dead item remains in the active set — `Pool.size` still counts it — and
the user count incremented by that call is never decremented (it stays 1,
which is also why the release protocol does not evict the item).  The two
universally quantified conjuncts show the mechanism: resuming on a rejected
creation moves the task straight to the release protocol without touching
the item, and the release protocol with an empty queue keeps any item whose
user count is nonzero. -/
theorem C9_creation_failure_leaks_slot :
    ((∀ p : PM, ∀ t iid : Nat, ∀ it : Item,
      p.tasks.get? t = some (.awaitCreation iid) →
      p.items.find? (fun i => i.iid = iid) = some it →
      it.sub.creation = .rejected →
      pstep p (.resumeCreation t) = .ok { p with
        tasks := p.tasks.set t (.poolFinally iid .createErr) }) ∧
    (∀ p : PM, ∀ t iid : Nat, ∀ o : Outcome, ∀ it : Item,
      p.queue = [] →
      p.tasks.get? t = some (.poolFinally iid o) →
      p.items.find? (fun i => i.iid = iid) = some it →
      ¬ (it.sub.users = 0 ∧ p.minI < poolSize p) →
      pstep p (.stepFinally t) = .ok { p with
        tasks := p.tasks.set t (.taskDone o) })) ∧
    (prun c9Init c9Acts).map
      (fun m => (m.tasks.get? 0, poolSize m, m.items.map (fun it => (it.sub.users, it.inPool)),
                 m.destroyLog))
      = .ok (some (.taskDone .createErr), 1, [(1, true)], []) := by
  refine ⟨⟨?_, ?_⟩, by rfl⟩
  · intro p t iid it ht hit hr
    exact resumeCreation_rejected p t iid it ht hit hr
  · intro p t iid o it hq ht hit hkeep
    exact stepFinally_keep p t iid o it hq ht hit hkeep

/-- Concrete state used to witness the universally quantified parts of
`C9_creation_failure_leaks_slot`: item 0 with rejected creation and one
(undecremented) user, task 0 suspended on the creation. -/
def c9WitPool : PM :=
  { fsm := .Running
    items := [{ iid := 0
                sub := { st := .Creating, users := 1, creation := .rejected }
                sched := false
                inPool := true }]
    queue := []
    tasks := [.awaitCreation 0]
    destroyLog := []
    rejections := []
    nextIid := 1
    maxI := none
    minI := 0
    idleT := 0
    conc := 1
    hasCb := true }

/-- Second concrete state for the release-protocol conjunct of C9: same
pool, task 0 already in the release protocol with the creation error. -/
def c9WitPool2 : PM :=
  { c9WitPool with tasks := [.poolFinally 0 .createErr] }

theorem C9_witness :
    pstep c9WitPool (.resumeCreation 0) = .ok { c9WitPool with
      tasks := c9WitPool.tasks.set 0 (.poolFinally 0 .createErr) } ∧
    pstep c9WitPool2 (.stepFinally 0) = .ok { c9WitPool2 with
      tasks := c9WitPool2.tasks.set 0 (.taskDone .createErr) } := by
  constructor
  · exact C9_creation_failure_leaks_slot.1.1 c9WitPool 0 0 _ (by rfl) (by rfl) (by rfl)
  · exact C9_creation_failure_leaks_slot.1.2 c9WitPool2 0 0 .createErr _
      (by rfl) (by rfl) (by rfl) (by decide)

/-- C10: calling `Pool.destroy` when the pool has already reached
`Destroyed` sends the `destroy` event from a state with no outgoing
`destroy` transition in `poolSchema`; the state-machine evaluator therefore
throws an invalid-transition error — the call is not a no-op. -/
theorem C10_double_destroy_throws (p : PM) (h : p.fsm = .Destroyed) :
    fsmSendPool p.fsm .destroy = .error .invalidTransition ∧
    pstep p .spawnDestroy = .error .invalidTransition := by
  constructor
  · simp [fsmSendPool, poolSchema, h]
  · simp [pstep, fsmSendPool, poolSchema, h]

/-- A fully destroyed pool: the state reached by `c8DestroyActs`, used to
witness `C10`. -/
def c10Pool : PM :=
  { poolInit none 0 0 1 true with fsm := .Destroyed, tasks := [.taskDone .destroyDone] }

theorem C10_witness :
    fsmSendPool c10Pool.fsm .destroy = .error .invalidTransition ∧
    pstep c10Pool .spawnDestroy = .error .invalidTransition :=
  C10_double_destroy_throws c10Pool rfl

/-- The destroyed pool used in the C10 witness is genuinely reachable: it is
the state produced by destroying a fresh pool. -/
theorem c10Pool_reachable : prun c8Init c8DestroyActs = .ok c10Pool := by rfl

/-- C4: whenever a `Pool.use` completes (any outcome `o`, including a thrown
`fn`) and the waiting-caller queue is non-empty, the release protocol
dequeues the earliest waiter `w` (the queue head) and hands it the released
item directly: `w` resumes at `useItemStart iid`.  The items (including
their scheduled-deletion flags and set membership) and the destroy log are
untouched — no eviction is scheduled or performed for the item. -/
theorem C4_queued_caller_wins (p : PM) (t w iid : Nat) (o : Outcome) (rest : List Nat)
    (hq : p.queue = w :: rest)
    (ht : p.tasks.get? t = some (.poolFinally iid o))
    (hw : p.tasks.get? w = some .inQueue) :
    pstep p (.stepFinally t) = .ok { p with
      queue := rest
      tasks := (p.tasks.set w (.useItemStart iid)).set t (.taskDone o) } ∧
    ((p.tasks.set w (.useItemStart iid)).set t (.taskDone o)).get? w
      = some (.useItemStart iid) ∧
    ((p.tasks.set w (.useItemStart iid)).set t (.taskDone o)).get? t
      = some (.taskDone o) := by
  have hne : t ≠ w := by
    intro he
    rw [he, hw] at ht
    cases ht
  refine ⟨stepFinally_handoff p t w iid o rest hq ht hw, ?_, ?_⟩
  · rw [get?SetNe _ t w _ hne]
    exact get?SetSelf p.tasks w _ (ltOfGet? p.tasks w _ hw)
  · refine get?SetSelf _ t _ ?_
    rw [List.length_set]
    exact ltOfGet? p.tasks t _ ht

/-- Pool state used to witness `C4_queued_caller_wins`: task 0 has finished
using item 0 while task 1 waits in the queue. -/
def c4Pool : PM :=
  { fsm := .Running
    items := [{ iid := 0
                sub := { st := .Idle, users := 0, creation := .resolved }
                sched := false
                inPool := true }]
    queue := [1]
    tasks := [.poolFinally 0 .ok, .inQueue]
    destroyLog := []
    rejections := []
    nextIid := 1
    maxI := some 1
    minI := 0
    idleT := 0
    conc := 1
    hasCb := true }

theorem C4_witness :
    pstep c4Pool (.stepFinally 0) = .ok { c4Pool with
      queue := []
      tasks := (c4Pool.tasks.set 1 (.useItemStart 0)).set 0 (.taskDone .ok) } ∧
    ((c4Pool.tasks.set 1 (.useItemStart 0)).set 0 (.taskDone .ok)).get? 1
      = some (.useItemStart 0) ∧
    ((c4Pool.tasks.set 1 (.useItemStart 0)).set 0 (.taskDone .ok)).get? 0
      = some (.taskDone .ok) :=
  C4_queued_caller_wins c4Pool 0 1 0 .ok [] rfl (by rfl) (by rfl)

/-- C2: the assignment policy of `Pool.use`.  (1) A selected candidate is an
active item with spare concurrency and the fewest current users.  (2) When
no item qualifies: below `maxInstances` a fresh instance is created and
appended to the active set with the caller as its first user; at
`maxInstances` the caller is enqueued at the back of the waiting queue.
(3) Waiters are served FIFO: a completing `use` hands its item to the head
of the queue. -/
theorem C2_assignment_policy (p : PM) :
    (∀ it : Item, selectCandidate (activeItems p) p.conc = some it →
      it ∈ activeItems p ∧ it.sub.users < p.conc ∧
      ∀ y ∈ activeItems p, y.sub.users < p.conc → it.sub.users ≤ y.sub.users) ∧
    (selectCandidate (activeItems p) p.conc = none →
      (∀ it ∈ p.items, it.iid ≠ p.nextIid) →
      ((sizeLt (poolSize p) p.maxI = true →
        pstep p .spawnUse = .ok { p with
          items := p.items ++ [freshItem p.nextIid]
          nextIid := p.nextIid + 1
          tasks := p.tasks ++ [.awaitCreation p.nextIid] }) ∧
       (sizeLt (poolSize p) p.maxI = false →
        pstep p .spawnUse = .ok { p with
          queue := p.queue ++ [p.tasks.length]
          tasks := p.tasks ++ [.inQueue] }))) ∧
    (∀ t w iid : Nat, ∀ o : Outcome, ∀ rest : List Nat,
      p.queue = w :: rest →
      p.tasks.get? t = some (.poolFinally iid o) →
      p.tasks.get? w = some .inQueue →
      pstep p (.stepFinally t) = .ok { p with
        queue := rest
        tasks := (p.tasks.set w (.useItemStart iid)).set t (.taskDone o) }) := by
  refine ⟨?_, ?_, ?_⟩
  · intro it hsel
    exact selectCandidate_spec (activeItems p) p.conc it hsel
  · intro hsel hfresh
    exact ⟨fun hsz => spawnUse_grow p hsel hsz hfresh,
           fun hsz => spawnUse_enqueue p hsel hsz⟩
  · intro t w iid o rest hq ht hw
    exact stepFinally_handoff p t w iid o rest hq ht hw

/-- Pool with two active items (one busy, one freer) under
`concurrencyPerInstance = 2`, used to witness the selection policy. -/
def c2Sel : PM :=
  { fsm := .Running
    items := [{ iid := 0
                sub := { st := .Using, users := 1, creation := .resolved }
                sched := false
                inPool := true },
              { iid := 1
                sub := { st := .Idle, users := 0, creation := .resolved }
                sched := false
                inPool := true }]
    queue := []
    tasks := [.runningFn 0]
    destroyLog := []
    rejections := []
    nextIid := 2
    maxI := none
    minI := 0
    idleT := 0
    conc := 2
    hasCb := false }

/-- The item `selectCandidate` picks in `c2Sel`. -/
def c2ItB : Item :=
  { iid := 1
    sub := { st := .Idle, users := 0, creation := .resolved }
    sched := false
    inPool := true }

/-- The busier item of `c2Sel`. -/
def c2ItA : Item :=
  { iid := 0
    sub := { st := .Using, users := 1, creation := .resolved }
    sched := false
    inPool := true }

/-- A fresh empty pool (below the cap). -/
def c2Grow : PM := poolInit none 0 0 1 false

/-- An empty pool already at its cap (`maxInstances = 0`). -/
def c2Full : PM := poolInit (some 0) 0 0 1 false

theorem C2_witness :
    (c2ItB ∈ activeItems c2Sel ∧ c2ItB.sub.users < c2Sel.conc ∧
      c2ItB.sub.users ≤ c2ItA.sub.users) ∧
    pstep c2Grow .spawnUse = .ok { c2Grow with
      items := c2Grow.items ++ [freshItem c2Grow.nextIid]
      nextIid := c2Grow.nextIid + 1
      tasks := c2Grow.tasks ++ [.awaitCreation c2Grow.nextIid] } ∧
    pstep c2Full .spawnUse = .ok { c2Full with
      queue := c2Full.queue ++ [c2Full.tasks.length]
      tasks := c2Full.tasks ++ [.inQueue] } ∧
    pstep c4Pool (.stepFinally 0) = .ok { c4Pool with
      queue := []
      tasks := (c4Pool.tasks.set 1 (.useItemStart 0)).set 0 (.taskDone .ok) } := by
  have h1 := (C2_assignment_policy c2Sel).1 c2ItB (by rfl)
  refine ⟨⟨h1.1, h1.2.1, h1.2.2 c2ItA (by decide) (by decide)⟩, ?_, ?_, ?_⟩
  · exact ((C2_assignment_policy c2Grow).2.1 (by rfl) (by decide)).1 (by rfl)
  · exact ((C2_assignment_policy c2Full).2.1 (by rfl) (by decide)).2 (by rfl)
  · exact (C2_assignment_policy c4Pool).2.2 0 1 0 .ok [] rfl (by rfl) (by rfl)

/-- C3: the destroy protocol.  (1) `Pool.destroy` first moves the pool out
of `Running` into `Destroying`.  (2) The teardown loop cannot pass an item
whose instance is still in use (the step is not enabled — `destroy` waits
the use out).  (3) Destroying an idle item completes that instance's
destruction (callback recorded when configured) without yet shrinking the
set.  (4) Once the loop has passed every active item, the one synchronous
tail clears the active set, rejects every still-queued caller with the
unavailable-pool outcome in FIFO (queue) order, and transitions
`Destroying → Destroyed`.  (5) Draining indeed marks every queued task
with the unavailable outcome.  (6) No other step of the machine ever
changes the pool's state, so `Destroyed` is reached only by that final
tail. -/
theorem C3_destroy_protocol :
    (∀ p : PM, p.fsm = .Running →
      pstep p .spawnDestroy = .ok { p with
        fsm := .Destroying
        tasks := p.tasks ++ [.destroyLoop 0] }) ∧
    (∀ p : PM, ∀ t k : Nat, ∀ it : Item,
      p.tasks.get? t = some (.destroyLoop k) →
      (activeItems p).get? k = some it →
      it.sub.st = .Using →
      pstep p (.destroyStep t) = .error .notEnabled) ∧
    (∀ p : PM, ∀ t k : Nat, ∀ it : Item,
      p.tasks.get? t = some (.destroyLoop k) →
      (activeItems p).get? k = some it →
      it.sub.st = .Idle →
      pstep p (.destroyStep t) = .ok { p with
        items := updItem p.items it.iid
          (fun i => { i with sub := { it.sub with st := .Destroyed } })
        destroyLog := p.destroyLog ++ (if p.hasCb then [it.iid] else [])
        tasks := p.tasks.set t (.destroyLoop (k + 1)) }) ∧
    (∀ p : PM, ∀ t k : Nat,
      p.tasks.get? t = some (.destroyLoop k) →
      (activeItems p).get? k = none →
      p.fsm = .Destroying →
      pstep p (.destroyStep t) = .ok { p with
        fsm := .Destroyed
        items := p.items.map (fun i => { i with inPool := false })
        queue := []
        rejections := p.rejections ++ p.queue
        tasks := (drainAll p.tasks p.queue).set t (.taskDone .destroyDone) }) ∧
    (∀ tasks : List PPc, ∀ ws : List Nat, ∀ w : Nat, w ∈ ws → w < tasks.length →
      (drainAll tasks ws).get? w = some (.taskDone .unavailable)) ∧
    (∀ p : PM, ∀ a : PAct, ∀ p' : PM, pstep p a = .ok p' → p.fsm ≠ p'.fsm →
      (p.fsm = .Running ∧ p'.fsm = .Destroying) ∨
      (p.fsm = .Destroying ∧ p'.fsm = .Destroyed)) := by
  refine ⟨?_, ?_, ?_, ?_, ?_, ?_⟩
  · intro p h
    exact spawnDestroy_fromRunning p h
  · intro p t k it ht hk hst
    exact destroyStep_waits p t k it ht hk hst
  · intro p t k it ht hk hst
    exact destroyStep_idle p t k it ht hk hst
  · intro p t k ht hk hfsm
    exact destroyStep_finish p t k ht hk hfsm
  · intro tasks ws w hw hlen
    exact drainAll_get? tasks ws w (Or.inl hw) hlen
  · intro p a p' h hne
    exact fsm_changes p a p' h hne

/-- A pool mid-destroy with one busy item and one queued caller: the
destroy task is task 2, the busy user task 0, the queued caller task 1. -/
def c3Busy : PM :=
  { fsm := .Destroying
    items := [{ iid := 0
                sub := { st := .Using, users := 1, creation := .resolved }
                sched := false
                inPool := true }]
    queue := [1]
    tasks := [.runningFn 0, .inQueue, .destroyLoop 0]
    destroyLog := []
    rejections := []
    nextIid := 1
    maxI := some 1
    minI := 0
    idleT := 0
    conc := 1
    hasCb := true }

/-- The same pool once the in-flight use has fully finished (the release
protocol has handed nothing: here the queue still holds task 1 and the item
is idle). -/
def c3Idle : PM :=
  { c3Busy with
    items := [{ iid := 0
                sub := { st := .Idle, users := 0, creation := .resolved }
                sched := false
                inPool := true }]
    tasks := [.taskDone .ok, .inQueue, .destroyLoop 0] }

/-- The pool after the loop destroyed item 0: the loop index is past the
active set. -/
def c3Done : PM :=
  { c3Idle with
    items := [{ iid := 0
                sub := { st := .Destroyed, users := 0, creation := .resolved }
                sched := false
                inPool := true }]
    destroyLog := [0]
    tasks := [.taskDone .ok, .inQueue, .destroyLoop 1] }

theorem C3_witness :
    pstep (poolInit none 0 0 1 true) .spawnDestroy
      = .ok { (poolInit none 0 0 1 true) with
              fsm := .Destroying
              tasks := [.destroyLoop 0] } ∧
    pstep c3Busy (.destroyStep 2) = .error .notEnabled ∧
    pstep c3Idle (.destroyStep 2) = .ok { c3Idle with
      items := updItem c3Idle.items 0
        (fun i => { i with sub := { st := .Destroyed, users := 0, creation := .resolved } })
      destroyLog := [0]
      tasks := c3Idle.tasks.set 2 (.destroyLoop 1) } ∧
    pstep c3Done (.destroyStep 2) = .ok { c3Done with
      fsm := .Destroyed
      items := c3Done.items.map (fun i => { i with inPool := false })
      queue := []
      rejections := [1]
      tasks := (drainAll c3Done.tasks c3Done.queue).set 2 (.taskDone .destroyDone) } ∧
    (drainAll c3Done.tasks c3Done.queue).get? 1 = some (.taskDone .unavailable) ∧
    (((poolInit none 0 0 1 true).fsm = .Running ∧
      ({ (poolInit none 0 0 1 true) with
         fsm := .Destroying
         tasks := [.destroyLoop 0] } : PM).fsm = .Destroying) ∨
     ((poolInit none 0 0 1 true).fsm = .Destroying ∧
      ({ (poolInit none 0 0 1 true) with
         fsm := .Destroying
         tasks := [.destroyLoop 0] } : PM).fsm = .Destroyed)) := by
  have hc := C3_destroy_protocol
  have h1 := hc.1 (poolInit none 0 0 1 true) rfl
  refine ⟨?_, ?_, ?_, ?_, ?_, ?_⟩
  · simpa using h1
  · exact hc.2.1 c3Busy 2 0 _ (by rfl) (by rfl) (by rfl)
  · have h3 := hc.2.2.1 c3Idle 2 0
      { iid := 0
        sub := { st := .Idle, users := 0, creation := .resolved }
        sched := false
        inPool := true } (by rfl) (by rfl) (by rfl)
    simpa using h3
  · have h4 := hc.2.2.2.1 c3Done 2 1 (by rfl) (by rfl) (by rfl)
    simpa using h4
  · exact hc.2.2.2.2.1 c3Done.tasks c3Done.queue 1 (by decide) (by decide)
  · exact hc.2.2.2.2.2 (poolInit none 0 0 1 true) .spawnDestroy
      { (poolInit none 0 0 1 true) with
        fsm := .Destroying
        tasks := [.destroyLoop 0] } (by simpa using h1) (by decide)

/-- Pool and schedule for the immediate-eviction scenario of C5: one `use`
completes with nobody waiting, `minInstances = 0` and `idleTimeout = 0`. -/
def c5Init : PM := poolInit none 0 0 1 true

def c5Acts : List PAct :=
  [ .spawnUse
  , .creationResolve 0
  , .resumeCreation 0
  , .resumeValue 0
  , .fnComplete 0 true
  , .stepFinally 0 ]

/-- C5: the eviction policy of the release protocol, for a completing `use`
with no queued waiter, a user count of zero and the set above
`minInstances`.  (1) With `idleTimeout = 0` the item is removed from the
active set and its instance destroyed inside the very step that completes
`use` — before the call returns to its caller.  (2) With `idleTimeout > 0`
only a deletion is scheduled: the cancellation handle (`sched`) is stored on
the item and nothing is destroyed.  (3) A fired cancellation: once the
handle has been invoked (`sched = false`) the deletion timer can no longer
fire.  (4) Claiming the item through `useItem` (a new `use` or a handed
waiter) invokes and clears the handle, so after the claim `sched` is false
and by (3) the eviction never happens.  (5) Concretely, with
`minInstances = 0, idleTimeout = 0`, after a lone `use` completes the size
is back to 0 and the configured destroy callback ran exactly once for that
instance. -/
theorem C5_eviction_policy :
    (∀ p : PM, ∀ t iid : Nat, ∀ o : Outcome, ∀ it : Item,
      p.queue = [] →
      p.tasks.get? t = some (.poolFinally iid o) →
      p.items.find? (fun i => i.iid = iid) = some it →
      it.sub.users = 0 → p.minI < poolSize p →
      p.idleT = 0 → it.sub.st = .Idle →
      pstep p (.stepFinally t) = .ok { p with
        items := updItem p.items iid
          (fun i => { i with inPool := false, sub := { it.sub with st := .Destroyed } })
        destroyLog := p.destroyLog ++ (if p.hasCb then [iid] else [])
        tasks := p.tasks.set t (.taskDone o) }) ∧
    (∀ p : PM, ∀ t iid : Nat, ∀ o : Outcome, ∀ it : Item,
      p.queue = [] →
      p.tasks.get? t = some (.poolFinally iid o) →
      p.items.find? (fun i => i.iid = iid) = some it →
      it.sub.users = 0 → p.minI < poolSize p →
      0 < p.idleT →
      pstep p (.stepFinally t) = .ok { p with
        items := updItem p.items iid (fun i => { i with sched := true })
        tasks := p.tasks.set t (.taskDone o) }) ∧
    (∀ p : PM, ∀ iid : Nat, ∀ it : Item,
      p.items.find? (fun i => i.iid = iid) = some it →
      it.sched = false →
      pstep p (.timerFire iid) = .error .notEnabled) ∧
    (∀ p : PM, ∀ iid : Nat, ∀ p' : PM, ∀ pc : PPc,
      useItemCore p iid = .ok (p', pc) →
      ∀ it ∈ p'.items, it.iid = iid → it.sched = false) ∧
    (prun c5Init c5Acts).map (fun m => (poolSize m, m.destroyLog))
      = .ok (0, [0]) := by
  refine ⟨?_, ?_, ?_, ?_, by rfl⟩
  · intro p t iid o it hq ht hit hu hmin hidle hst
    exact stepFinally_evictNow p t iid o it hq ht hit hu hmin hidle hst
  · intro p t iid o it hq ht hit hu hmin hidle
    exact stepFinally_schedule p t iid o it hq ht hit hu hmin hidle
  · intro p iid it hit hs
    exact timerFire_cancelled p iid it hit hs
  · intro p iid p' pc h
    exact useItemCore_cancels p iid p' pc h

/-- An idle item whose `use` just completed, `idleTimeout = 0`. -/
def c5Now : PM :=
  { fsm := .Running
    items := [{ iid := 0
                sub := { st := .Idle, users := 0, creation := .resolved }
                sched := false
                inPool := true }]
    queue := []
    tasks := [.poolFinally 0 .ok]
    destroyLog := []
    rejections := []
    nextIid := 1
    maxI := none
    minI := 0
    idleT := 0
    conc := 1
    hasCb := true }

/-- The same situation under `idleTimeout = 1000`. -/
def c5Later : PM := { c5Now with idleT := 1000 }

/-- `c5Later` after the eviction was scheduled and then a new `use` claimed
the item (handle cleared). -/
def c5Claimed : PM :=
  { c5Later with
    items := [{ iid := 0
                sub := { st := .Using, users := 1, creation := .resolved }
                sched := false
                inPool := true }]
    tasks := [.taskDone .ok, .awaitValue 0] }

/-- State `useItemCore` produces when a new `use` claims the scheduled
item of `c5Sched`: handle cleared, one user, instance `Using`. -/
def c5AfterClaim : PM :=
  { c5Later with
    items := [{ iid := 0
                sub := { st := .Using, users := 1, creation := .resolved }
                sched := false
                inPool := true }]
    tasks := [.taskDone .ok] }

/-- `c5Later` with the eviction scheduled, about to be claimed. -/
def c5Sched : PM :=
  { c5Later with
    items := [{ iid := 0
                sub := { st := .Idle, users := 0, creation := .resolved }
                sched := true
                inPool := true }]
    tasks := [.taskDone .ok] }

theorem C5_witness :
    pstep c5Now (.stepFinally 0) = .ok { c5Now with
      items := updItem c5Now.items 0
        (fun i => { i with
                    inPool := false
                    sub := { st := .Destroyed, users := 0, creation := .resolved } })
      destroyLog := [0]
      tasks := c5Now.tasks.set 0 (.taskDone .ok) } ∧
    pstep c5Later (.stepFinally 0) = .ok { c5Later with
      items := updItem c5Later.items 0 (fun i => { i with sched := true })
      tasks := c5Later.tasks.set 0 (.taskDone .ok) } ∧
    pstep c5Claimed (.timerFire 0) = .error .notEnabled ∧
    ({ iid := 0
       sub := { st := .Using, users := 1, creation := .resolved }
       sched := false
       inPool := true } : Item).sched = false := by
  have hc := C5_eviction_policy
  refine ⟨?_, ?_, ?_, ?_⟩
  · have h := hc.1 c5Now 0 0 .ok
      { iid := 0
        sub := { st := .Idle, users := 0, creation := .resolved }
        sched := false
        inPool := true } rfl (by rfl) (by rfl) (by rfl) (by decide) rfl (by rfl)
    simpa using h
  · have h := hc.2.1 c5Later 0 0 .ok
      { iid := 0
        sub := { st := .Idle, users := 0, creation := .resolved }
        sched := false
        inPool := true } rfl (by rfl) (by rfl) (by rfl) (by decide) (by decide)
    simpa using h
  · exact hc.2.2.1 c5Claimed 0
      { iid := 0
        sub := { st := .Using, users := 1, creation := .resolved }
        sched := false
        inPool := true } (by rfl) (by rfl)
  · exact hc.2.2.2.1 c5Sched 0 c5AfterClaim (.awaitValue 0) (by rfl)
      { iid := 0
        sub := { st := .Using, users := 1, creation := .resolved }
        sched := false
        inPool := true } (by decide) (by decide)
